import Mathlib

/-!
Verification of the upload/annotate/store/list pipeline of a Flask image
gallery application (`src/main.py`).

The development embeds the Python source shallowly:

* `Json` is the abstract syntax of the JSON documents the application
  manipulates.  Numbers are modelled as integers: the application only ever
  produces integer timestamps and string fields, and no claim concerns
  floating point values (floating point is outside the model; the parser
  rejects a document containing a fraction or exponent part rather than
  misreading it).
* `dumps` models Python's `json.dumps` with its default options
  (`ensure_ascii=True`, separators `", "` and `": "`).
* `jsonLoads` models Python's `json.loads`; a result of `none` corresponds
  to `json.JSONDecodeError` being raised.  Lone surrogate escapes, which
  CPython accepts but which denote no Unicode scalar value, are rejected by
  the model.
* The object store is a list of named blobs; each Python function touching
  the store becomes a Lean function threading the store state explicitly.
* Python dictionaries are association lists without duplicate keys;
  `objInsert` models `d[k] = v` (update in place, insertion order kept).
-/

namespace GalleryApp

/-- JSON values as manipulated by the application (integer numbers only). -/
inductive Json where
  | null : Json
  | bool : Bool → Json
  | num : Int → Json
  | str : String → Json
  | arr : List Json → Json
  | obj : List (String × Json) → Json

/-- Python dictionary update `d[k] = v`: replace the value in place when the
key is present (keeping its position, as CPython dicts do), append otherwise. -/
def objInsert : List (String × Json) → String → Json → List (String × Json)
  | [], k, v => [(k, v)]
  | (k', v') :: rest, k, v =>
    if k' = k then (k, v) :: rest else (k', v') :: objInsert rest k v

/-- Python dictionary lookup `d.get(k)` on an association list. -/
def objLookup : List (String × Json) → String → Option Json
  | [], _ => none
  | (k', v') :: rest, k => if k' = k then some v' else objLookup rest k

/-! ### Serialization: model of `json.dumps` (default options) -/

/-- The decimal digit character for `n < 10`. -/
def digitChar (n : Nat) : Char := Char.ofNat (48 + n)

/-- Lowercase hexadecimal digit character for `n < 16`, as CPython emits in
`\uXXXX` escapes. -/
def hexDigitChar (n : Nat) : Char :=
  if n < 10 then Char.ofNat (48 + n) else Char.ofNat (87 + n)

/-- A `\uXXXX` escape for a code unit `n < 0x10000`. -/
def uEscape4 (n : Nat) : List Char :=
  ['\\', 'u', hexDigitChar (n / 4096 % 16), hexDigitChar (n / 256 % 16),
   hexDigitChar (n / 16 % 16), hexDigitChar (n % 16)]

/-- `json.dumps` escaping of a single character (`ensure_ascii=True`):
short escapes for the common controls, `\uXXXX` (with a surrogate pair
beyond the basic plane) for every other character outside `0x20`–`0x7E`. -/
def escapeChar (c : Char) : List Char :=
  if c = '"' then ['\\', '"']
  else if c = '\\' then ['\\', '\\']
  else if c = '\n' then ['\\', 'n']
  else if c = '\r' then ['\\', 'r']
  else if c = '\t' then ['\\', 't']
  else if c.toNat = 8 then ['\\', 'b']
  else if c.toNat = 12 then ['\\', 'f']
  else if 32 ≤ c.toNat ∧ c.toNat ≤ 126 then [c]
  else if c.toNat < 65536 then uEscape4 c.toNat
  else uEscape4 (55296 + (c.toNat - 65536) / 1024) ++
       uEscape4 (56320 + (c.toNat - 65536) % 1024)

/-- The characters of the serialized form of a string (with quotes). -/
def dumpStringChars (s : String) : List Char :=
  '"' :: s.data.flatMap escapeChar ++ ['"']

/-- Decimal digits, most significant first; the fuel only serves to make
the recursion structural and is never exhausted when it exceeds `n`. -/
def natToCharsGo : Nat → Nat → List Char
  | 0, _ => []
  | fuel + 1, n =>
    if n < 10 then [digitChar n]
    else natToCharsGo fuel (n / 10) ++ [digitChar (n % 10)]

/-- Decimal digits of a natural number, most significant first. -/
def natToChars (n : Nat) : List Char := natToCharsGo (n + 1) n

/-- Decimal form of an integer. -/
def intToChars (n : Int) : List Char :=
  if n < 0 then '-' :: natToChars (-n).toNat else natToChars n.toNat

mutual

/-- Characters of `json.dumps` of a value (default separators). -/
def dumpChars : Json → List Char
  | .null => "null".data
  | .bool true => "true".data
  | .bool false => "false".data
  | .num n => intToChars n
  | .str s => dumpStringChars s
  | .arr xs => '[' :: dumpItems xs ++ [']']
  | .obj kvs => '{' :: dumpMembers kvs ++ ['}']

/-- Array items joined by `", "`. -/
def dumpItems : List Json → List Char
  | [] => []
  | [x] => dumpChars x
  | x :: y :: rest => dumpChars x ++ [',', ' '] ++ dumpItems (y :: rest)

/-- Object members `"key": value` joined by `", "`. -/
def dumpMembers : List (String × Json) → List Char
  | [] => []
  | [(k, v)] => dumpStringChars k ++ ':' :: ' ' :: dumpChars v
  | (k, v) :: m :: rest =>
    dumpStringChars k ++ ':' :: ' ' :: dumpChars v ++ [',', ' '] ++
      dumpMembers (m :: rest)

end

/-- Model of `json.dumps` with default options. -/
def dumps (v : Json) : String := ⟨dumpChars v⟩

/-! ### Parsing: model of `json.loads` -/

/-- JSON inter-token whitespace (space, tab, newline, carriage return). -/
def isWsChar (c : Char) : Bool :=
  c = ' ' || c = '\t' || c = '\n' || c = '\r'

/-- Drop leading JSON whitespace. -/
def skipWs : List Char → List Char
  | [] => []
  | c :: r => if isWsChar c then skipWs r else c :: r

/-- Is `c` a decimal digit (`0`–`9`)? -/
def isDigitCh (c : Char) : Bool :=
  48 ≤ c.toNat && c.toNat ≤ 57

/-- Value of a hexadecimal digit character. -/
def hexVal (c : Char) : Option Nat :=
  if 48 ≤ c.toNat ∧ c.toNat ≤ 57 then some (c.toNat - 48)
  else if 97 ≤ c.toNat ∧ c.toNat ≤ 102 then some (c.toNat - 87)
  else if 65 ≤ c.toNat ∧ c.toNat ≤ 70 then some (c.toNat - 55)
  else none

/-- Prepend a character to the string component of a parse result. -/
def consFst (c : Char) :
    Option (List Char × List Char) → Option (List Char × List Char)
  | none => none
  | some (s, r) => some (c :: s, r)

/-- Combine four hexadecimal digit characters into a code unit. -/
def hexVal4 (h1 h2 h3 h4 : Char) : Option Nat :=
  match hexVal h1, hexVal h2, hexVal h3, hexVal h4 with
  | some a, some b, some c, some d => some (((a * 16 + b) * 16 + c) * 16 + d)
  | _, _, _, _ => none

mutual

/-- Parse the body of a JSON string after the opening quote, returning the
decoded characters and the input after the closing quote.  Strict mode:
raw control characters below `0x20` are rejected, as CPython does. -/
def parseStringBody : List Char → Option (List Char × List Char)
  | [] => none
  | c :: r =>
    if c = '"' then some ([], r)
    else if c = '\\' then parseEscape r
    else if c.toNat < 32 then none
    else consFst c (parseStringBody r)

/-- Parse one backslash escape (the backslash already consumed) followed by
the remainder of the string body.  A `\uXXXX` high surrogate must be followed
by a low surrogate escape: a lone surrogate denotes no Unicode scalar value
and is rejected by the model. -/
def parseEscape : List Char → Option (List Char × List Char)
  | [] => none
  | e :: r =>
    if e = '"' then consFst '"' (parseStringBody r)
    else if e = '\\' then consFst '\\' (parseStringBody r)
    else if e = '/' then consFst '/' (parseStringBody r)
    else if e = 'b' then consFst (Char.ofNat 8) (parseStringBody r)
    else if e = 'f' then consFst (Char.ofNat 12) (parseStringBody r)
    else if e = 'n' then consFst '\n' (parseStringBody r)
    else if e = 'r' then consFst '\r' (parseStringBody r)
    else if e = 't' then consFst '\t' (parseStringBody r)
    else if e = 'u' then parseUEscape r
    else none

/-- The `\uXXXX` escape forms: a basic-plane scalar value, or a high
surrogate followed by a low surrogate escape. -/
def parseUEscape : List Char → Option (List Char × List Char)
  | h1 :: h2 :: h3 :: h4 :: r2 =>
    match hexVal4 h1 h2 h3 h4 with
    | none => none
    | some n =>
      if 55296 ≤ n ∧ n ≤ 56319 then parseLowSurrogate n r2
      else if 56320 ≤ n ∧ n ≤ 57343 then none
      else consFst (Char.ofNat n) (parseStringBody r2)
  | _ => none

/-- After a high surrogate `hi`, a `\uXXXX` low surrogate must follow; the
two combine into one supplementary-plane character. -/
def parseLowSurrogate (hi : Nat) : List Char → Option (List Char × List Char)
  | b1 :: u2 :: g1 :: g2 :: g3 :: g4 :: r3 =>
    if b1 = '\\' ∧ u2 = 'u' then
      match hexVal4 g1 g2 g3 g4 with
      | some m =>
        if 56320 ≤ m ∧ m ≤ 57343 then
          consFst (Char.ofNat (65536 + (hi - 55296) * 1024 + (m - 56320)))
            (parseStringBody r3)
        else none
      | none => none
    else none
  | _ => none

end

/-- Longest prefix of decimal digits. -/
def takeDigits : List Char → List Char × List Char
  | [] => ([], [])
  | c :: r =>
    if isDigitCh c then
      let p := takeDigits r
      (c :: p.1, p.2)
    else ([], c :: r)

/-- Numeric value of a digit string (most significant first). -/
def digitsToNat (ds : List Char) : Nat :=
  ds.foldl (fun a c => a * 10 + (c.toNat - 48)) 0

/-- Does the input continue with a fraction or exponent part?  Such a
document denotes a float, which is outside the integer model. -/
def floatFollows : List Char → Bool
  | [] => false
  | c :: _ => c = '.' || c = 'e' || c = 'E'

/-- Parse an unsigned JSON integer (no leading zeros, per the JSON number
grammar CPython implements). -/
def parseNumAbs : List Char → Option (Nat × List Char)
  | [] => none
  | c :: r =>
    if c = '0' then
      if floatFollows r then none else some (0, r)
    else if isDigitCh c then
      if floatFollows (takeDigits (c :: r)).2 then none
      else some (digitsToNat (takeDigits (c :: r)).1, (takeDigits (c :: r)).2)
    else none

/-- Parse a JSON integer with optional sign. -/
def parseNumber : List Char → Option (Int × List Char)
  | [] => none
  | c :: r =>
    if c = '-' then
      match parseNumAbs r with
      | some (n, rest) => some (-(n : Int), rest)
      | none => none
    else
      match parseNumAbs (c :: r) with
      | some (n, rest) => some ((n : Int), rest)
      | none => none

mutual

/-- Parse one JSON value (leading whitespace allowed), returning the value
and the unconsumed input.  `fuel` bounds the recursion depth; the top level
supplies more fuel than any input can consume. -/
def parseValue : Nat → List Char → Option (Json × List Char)
  | 0, _ => none
  | fuel + 1, s =>
    match skipWs s with
    | [] => none
    | c :: r =>
      if c = '{' then
        if (skipWs r).head? = some '}' then some (.obj [], (skipWs r).tail)
        else parseMembers fuel (skipWs r) []
      else if c = '[' then
        if (skipWs r).head? = some ']' then some (.arr [], (skipWs r).tail)
        else parseItems fuel (skipWs r) []
      else if c = '"' then
        match parseStringBody r with
        | some (cs, rest) => some (.str ⟨cs⟩, rest)
        | none => none
      else if c = 't' then
        match r with
        | 'r' :: 'u' :: 'e' :: r2 => some (.bool true, r2)
        | _ => none
      else if c = 'f' then
        match r with
        | 'a' :: 'l' :: 's' :: 'e' :: r2 => some (.bool false, r2)
        | _ => none
      else if c = 'n' then
        match r with
        | 'u' :: 'l' :: 'l' :: r2 => some (.null, r2)
        | _ => none
      else
        match parseNumber (c :: r) with
        | some (n, rest) => some (.num n, rest)
        | none => none

/-- Parse the members of an object after `{` (first member's opening quote
expected at the head), accumulating into a Python dict. -/
def parseMembers (fuel : Nat) (s : List Char) (acc : List (String × Json)) :
    Option (Json × List Char) :=
  match fuel with
  | 0 => none
  | fuel + 1 =>
    match s with
    | [] => none
    | c :: r =>
      if c = '"' then
        match parseStringBody r with
        | some (kcs, r2) =>
          match skipWs r2 with
          | ':' :: r3 =>
            match parseValue fuel r3 with
            | some (v, r4) =>
              match skipWs r4 with
              | ',' :: r5 => parseMembers fuel (skipWs r5) (objInsert acc ⟨kcs⟩ v)
              | '}' :: r5 => some (.obj (objInsert acc ⟨kcs⟩ v), r5)
              | _ => none
            | none => none
          | _ => none
        | none => none
      else none

/-- Parse the items of an array after `[` (first item expected next). -/
def parseItems (fuel : Nat) (s : List Char) (acc : List Json) :
    Option (Json × List Char) :=
  match fuel with
  | 0 => none
  | fuel + 1 =>
    match parseValue fuel s with
    | some (v, r) =>
      match skipWs r with
      | ',' :: r2 => parseItems fuel r2 (acc ++ [v])
      | ']' :: r2 => some (.arr (acc ++ [v]), r2)
      | _ => none
    | none => none

end

/-- Model of `json.loads`: parse one document, requiring the whole input to
be consumed up to trailing whitespace.  `none` corresponds to
`json.JSONDecodeError`. -/
def jsonLoads (s : String) : Option Json :=
  match parseValue (s.length + 1) s.data with
  | some (v, rest) => if skipWs rest = [] then some v else none
  | none => none

/-! ### Model of `os.path` helpers (POSIX flavour) -/

/-- Index of the last occurrence of `c`, or `-1` (CPython `str.rfind`). -/
def rfind (cs : List Char) (c : Char) : Int :=
  match cs.reverse.findIdx? (· = c) with
  | some j => (cs.length : Int) - 1 - (j : Int)
  | none => -1

/-- Model of `os.path.splitext`: split off the last dot-suffix of the final
path component, treating leading dots of that component as part of the name,
exactly as CPython's generic `splitext` does. -/
def splitext (s : String) : String × String :=
  let cs := s.data
  let sepIndex := rfind cs '/'
  let dotIndex := rfind cs '.'
  if decide (sepIndex < dotIndex) &&
      (List.range cs.length).any
        (fun i => decide (sepIndex < (i : Int)) && decide ((i : Int) < dotIndex) &&
          !(cs.getD i '.' == '.'))
  then (⟨cs.take dotIndex.toNat⟩, ⟨cs.drop dotIndex.toNat⟩)
  else (s, "")

/-- Model of `os.path.basename` (POSIX): everything after the last slash. -/
def basename (s : String) : String :=
  ⟨(s.data.reverse.takeWhile (fun c => !(c == '/'))).reverse⟩

/-- Model of `os.path.join` for the one shape the code uses
(`os.path.join("./uploads", filename)`). -/
def pathJoin (a b : String) : String :=
  if b.startsWith "/" then b else a ++ "/" ++ b

/-! ### The object store

The remote bucket is modelled as a list of named blobs; the list order is
the enumeration order of `bucket.list_blobs()`.  Uploading overwrites an
object of the same name in place, otherwise appends. -/

/-- One stored blob: payload bytes (as a string) and its content type. -/
structure StoredObject where
  data : String
  contentType : String

/-- The bucket: named blobs in enumeration order. -/
abbrev Bucket := List (String × StoredObject)

/-- Blob lookup by name. -/
def bucketGet : Bucket → String → Option StoredObject
  | [], _ => none
  | (n, o) :: rest, name => if n = name then some o else bucketGet rest name

/-- Blob upload: overwrite in place or append. -/
def bucketPut : Bucket → String → StoredObject → Bucket
  | [], name, o => [(name, o)]
  | (n, o') :: rest, name, o =>
    if n = name then (name, o) :: rest else (n, o') :: bucketPut rest name o

/-- Model of `blob.exists()`. -/
def bucketExists (b : Bucket) (name : String) : Bool :=
  (bucketGet b name).isSome

/-- `list_cloud_files`: the names of all blobs, in enumeration order. -/
def list_cloud_files (b : Bucket) : List String := b.map (·.1)

/-- `upload_file_to_cloud`: store the local file's bytes under its base
name with content type `image/jpeg`; returns the stored name.  The local
file system is abstracted: the file's bytes are the `content` argument. -/
def upload_file_to_cloud (b : Bucket) (file : String) (content : String) :
    String × Bucket :=
  let name := basename file
  (name, bucketPut b name ⟨content, "image/jpeg"⟩)

/-- `upload_json_to_cloud`: derive the metadata name from the paired image
filename, stamp `upload_timestamp` with the current epoch seconds `now`
(mutating the argument dictionary), serialize, and upload with content type
`application/json`.  Returns the metadata filename, the mutated dictionary
and the new bucket state. -/
def upload_json_to_cloud (json_data : List (String × Json)) (filename : String)
    (b : Bucket) (now : Int) : String × List (String × Json) × Bucket :=
  let json_filename := (splitext filename).1 ++ ".json"
  let d := objInsert json_data "upload_timestamp" (.num now)
  (json_filename, d, bucketPut b json_filename ⟨dumps (.obj d), "application/json"⟩)

/-- A minimal heap of Python dictionaries, for stating aliasing facts:
an address is an index, and in-place mutation is `List.set`. -/
abbrev DictHeap := List (List (String × Json))

/-- `upload_json_to_cloud` viewed through the heap: the caller passes the
address of its dictionary, and the function updates that same address. -/
def upload_json_to_cloud_onHeap (heap : DictHeap) (addr : Nat)
    (filename : String) (b : Bucket) (now : Int) : String × DictHeap × Bucket :=
  let r := upload_json_to_cloud (heap.getD addr []) filename b now
  (r.1, heap.set addr r.2.1, r.2.2)

/-- `get_json_from_cloud`: placeholder document when the blob is missing,
otherwise parse its payload.  `none` models an uncaught
`json.JSONDecodeError` propagating out of the function. -/
def get_json_from_cloud (json_filename : String) (b : Bucket) : Option Json :=
  match bucketGet b json_filename with
  | none => some (.obj [("title", .str "No metadata available"),
      ("description", .str "No description available"),
      ("upload_timestamp", .num 0)])
  | some o => jsonLoads o.data

/-! ### The gallery assembler -/

/-- The `.jpg` / `.jpeg` filter (case-insensitive), as in the source:
`file.lower().endswith(".jpg") or file.lower().endswith(".jpeg")`.
Lowercasing is per character (ASCII, which decides these suffixes exactly
as CPython's `str.lower` does). -/
def isImageName (f : String) : Bool :=
  let lf := f.data.map Char.toLower
  (".jpg".data.isSuffixOf lf) || (".jpeg".data.isSuffixOf lf)

/-- One gallery view-model entry.  `title`, `description` and `timestamp`
hold whatever JSON values `metadata.get` produced. -/
structure GalleryEntry where
  filename : String
  image_url : String
  json_url : String
  title : Json
  description : Json
  timestamp : Json

/-- Assemble the entry for one image from its (parsed) metadata dictionary,
with the `.get` defaults of the source.  URL generation is modelled as the
route prefix plus the filename. -/
def buildEntry (file : String) (metadata : List (String × Json)) : GalleryEntry :=
  let json_filename := (splitext file).1 ++ ".json"
  { filename := file
    image_url := "/file/" ++ file
    json_url := "/json/" ++ json_filename
    title := (objLookup metadata "title").getD (.str "No title available")
    description := (objLookup metadata "description").getD (.str "No description available")
    timestamp := (objLookup metadata "upload_timestamp").getD (.num 0) }

/-- The loop body of `get_all_images_with_metadata`: walk the listed files
in order, keep the image-extension ones, load and join metadata.  `none`
models an exception escaping the loop: the metadata blob exists but does
not parse, or parses to a non-dictionary (on which `metadata.get` would
raise `AttributeError`). -/
def collectEntries : List String → Bucket → Option (List GalleryEntry)
  | [], _ => some []
  | f :: rest, b =>
    if isImageName f then
      match get_json_from_cloud ((splitext f).1 ++ ".json") b with
      | some (.obj kvs) =>
        match collectEntries rest b with
        | some es => some (buildEntry f kvs :: es)
        | none => none
      | _ => none
    else collectEntries rest b

/-- The integer sort key of an entry (defaulting, never reached unless the
timestamp is an integer or the list is too short to compare). -/
def tsInt (e : GalleryEntry) : Int :=
  match e.timestamp with
  | .num n => n
  | _ => 0

/-- The comparator realised by `sort(key=..., reverse=True)`: newest first,
stable on ties. -/
def entryDescLe (x y : GalleryEntry) : Bool := decide (tsInt y ≤ tsInt x)

/-- Can `list.sort` compare the timestamp keys without a `TypeError`?
With at most one entry no comparison happens; otherwise the model requires
all keys to be integers (the only case the application produces). -/
def sortKeysOk (es : List GalleryEntry) : Bool :=
  es.length ≤ 1 || es.all (fun e => match e.timestamp with | .num _ => true | _ => false)

/-- `get_all_images_with_metadata`: list, filter, join, then sort by
timestamp descending (Python's stable sort).  `none` models an uncaught
exception. -/
def get_all_images_with_metadata (b : Bucket) : Option (List GalleryEntry) :=
  match collectEntries (list_cloud_files b) b with
  | some entries =>
    if sortKeysOk entries then some (List.mergeSort entries entryDescLe) else none
  | none => none

/-! ### The annotation client -/

/-- The backtick character. -/
def btick : Char := Char.ofNat 96

/-- Python `str.replace`, fuelled to keep the recursion structural: replace
non-overlapping occurrences left to right.  The fuel is never exhausted
when it is at least the input length. -/
def replaceAllGo (pat rep : List Char) : Nat → List Char → List Char
  | 0, s => s
  | _ + 1, [] => []
  | fuel + 1, c :: r =>
    if pat ≠ [] ∧ pat.isPrefixOf (c :: r) then
      rep ++ replaceAllGo pat rep fuel ((c :: r).drop pat.length)
    else
      c :: replaceAllGo pat rep fuel r

/-- Python `str.replace`: replace non-overlapping occurrences left to
right. -/
def replaceAll (pat rep : List Char) (s : List Char) : List Char :=
  replaceAllGo pat rep s.length s

/-- The response clean-up of `analyze_image_with_gemini`, in source order:
newline, carriage return and tab each replaced by a space, then the
markdown fence markers removed. -/
def normalizeResponse (s : String) : String :=
  ⟨replaceAll [btick, btick, btick] []
    (replaceAll [btick, btick, btick, 'j', 's', 'o', 'n'] []
      (replaceAll ['\t'] [' ']
        (replaceAll ['\r'] [' ']
          (replaceAll ['\n'] [' '] s.data))))⟩

/-- The fixed fallback payload substituted when parsing fails. -/
def fallbackResult : Json :=
  .obj [("title", .str "error encountered in generating title"),
        ("description", .str "error encountered in generating description")]

/-- `analyze_image_with_gemini`, as a function of the AI's free-text
response (the network interaction with the model is the abstracted input):
normalize the text, parse it, and substitute the fixed fallback payload on
`json.JSONDecodeError`. -/
def analyze_image_with_gemini (responseText : String) : Json :=
  match jsonLoads (normalizeResponse responseText) with
  | some v => v
  | none => fallbackResult

/-! ### The upload pipeline -/

/-- The `/upload` handler, as a function of the submitted file's name and
bytes, the AI response text, the bucket, and the clock.  Returns the new
bucket and the redirect target; `none` models an uncaught exception
(which the source can only hit when the parsed AI response is a JSON value
that is not a dictionary, making `json_data["upload_timestamp"] = ...`
raise a `TypeError`). -/
def upload (filename content aiResponseText : String) (b : Bucket)
    (now : Int) : Option (Bucket × String) :=
  if filename ≠ "" ∧ isImageName filename then
    let temp_path := pathJoin "./uploads" filename
    match analyze_image_with_gemini aiResponseText with
    | .obj image_data =>
      let r1 := upload_file_to_cloud b temp_path content
      let r2 := upload_json_to_cloud image_data filename r1.2 now
      some (r2.2.2, "/")
    | _ => none
  else
    some (b, "/")

/-- A boundary after which a decimal number cannot extend: end of input, or
a character that is neither a digit nor a fraction/exponent introducer.
Every continuation the serializer produces after a number satisfies it. -/
def numStop : List Char → Bool
  | [] => true
  | c :: _ => !isDigitCh c && !(c == '.') && !(c == 'e') && !(c == 'E')

/-- Does the derived metadata blob for image `f`, when the gallery loads it,
yield a Python dictionary whose `upload_timestamp`, if any, is an integer?
This is exactly the data-model shape of a Metadata Document (a missing blob
is fine: the placeholder is such a dictionary). -/
def metadataDictOk (b : Bucket) (f : String) : Bool :=
  match get_json_from_cloud ((splitext f).1 ++ ".json") b with
  | some (.obj kvs) =>
    match objLookup kvs "upload_timestamp" with
    | none => true
    | some (.num _) => true
    | some _ => false
  | _ => false

/-- A bucket state within the spec's data model: every listed image's
metadata document is dictionary-shaped with an integer timestamp. -/
def bucketViewOk (b : Bucket) : Bool :=
  (list_cloud_files b).all (fun f => !isImageName f || metadataDictOk b f)

/-- The gallery entry the loop builds for one image (meaningful when
`metadataDictOk` holds; junk otherwise). -/
def entryOf (b : Bucket) (f : String) : GalleryEntry :=
  match get_json_from_cloud ((splitext f).1 ++ ".json") b with
  | some (.obj kvs) => buildEntry f kvs
  | _ => buildEntry f []

/-- A character that stands for itself inside a JSON string literal:
printable ASCII, not a quote, backslash or backtick. -/
def plainJsonChar (c : Char) : Bool :=
  32 ≤ c.toNat && c.toNat ≤ 126 && !(c == '"') && !(c == '\\') && !(c == btick)

/-- A representative valid AI response: the JSON object with `title` and
`description` fields, wrapped in markdown code fences and pretty-printed
with embedded carriage-return, tab and newline characters. -/
def fencedTemplate (t d : String) : String :=
  ⟨[btick, btick, btick, 'j', 's', 'o', 'n', '\r',
    '{', '"', 't', 'i', 't', 'l', 'e', '"', ':', '\t', '"'] ++
   (t.data ++
    (['"', ',', '\t', '"', 'd', 'e', 's', 'c', 'r', 'i', 'p', 't', 'i', 'o',
      'n', '"', ':', '\t', '"'] ++
     (d.data ++ ['"', '}', '\n', btick, btick, btick])))⟩

/-- A concrete bucket exercising the gallery: two annotated images with
timestamps 200 and 100, one image with no metadata document, one with an
empty metadata document, and one sharing timestamp 100. -/
def demoBucket : Bucket :=
  [("b.jpg", ⟨"IMG", "image/jpeg"⟩),
   ("b.json", ⟨"\x7b\"title\": \"B\", \"description\": \"bb\", \"upload_timestamp\": 200\x7d",
     "application/json"⟩),
   ("a.jpg", ⟨"IMG", "image/jpeg"⟩),
   ("a.json", ⟨"\x7b\"title\": \"A\", \"description\": \"aa\", \"upload_timestamp\": 100\x7d",
     "application/json"⟩),
   ("c.jpg", ⟨"IMG", "image/jpeg"⟩),
   ("d.jpg", ⟨"IMG", "image/jpeg"⟩),
   ("d.json", ⟨"\x7b\x7d", "application/json"⟩),
   ("e.jpg", ⟨"IMG", "image/jpeg"⟩),
   ("e.json", ⟨"\x7b\"title\": \"E\", \"description\": \"ee\", \"upload_timestamp\": 100\x7d",
     "application/json"⟩)]

/-- A bucket whose one image has a metadata document carrying only a
`title`: the `description` and `upload_timestamp` fields are absent while
`title` is present, a mixed partially-populated document. -/
def mixedBucket : Bucket :=
  [("m.jpg", ⟨"IMG", "image/jpeg"⟩),
   ("m.json", ⟨"\x7b\"title\": \"M\"\x7d", "application/json"⟩)]

/-- Well-formed JSON values: every object, at every nesting depth, has
pairwise distinct keys — exactly the values representable as Python
dictionaries.  -/
inductive JsonWF : Json → Prop where
  | null : JsonWF .null
  | bool (b : Bool) : JsonWF (.bool b)
  | num (n : Int) : JsonWF (.num n)
  | str (s : String) : JsonWF (.str s)
  | arr (xs : List Json) : (∀ x ∈ xs, JsonWF x) → JsonWF (.arr xs)
  | obj (kvs : List (String × Json)) : (∀ kv ∈ kvs, JsonWF kv.2) →
      (kvs.map Prod.fst).Nodup → JsonWF (.obj kvs)

/-! ## Lemmas -/

/-! ### Dictionaries -/

theorem mem_keys_objInsert {kvs : List (String × Json)} {k x : String} {v : Json}
    (h : x ∈ (objInsert kvs k v).map Prod.fst) :
    x ∈ kvs.map Prod.fst ∨ x = k := by
  induction kvs with
  | nil => simpa [objInsert] using h
  | cons kv rest ih =>
    obtain ⟨k', v'⟩ := kv
    by_cases hk : k' = k
    · subst hk
      exact Or.inl (by simpa [objInsert] using h)
    · simp only [objInsert, if_neg hk, List.map_cons, List.mem_cons] at h
      rcases h with h | h
      · exact Or.inl (by simp [h])
      · rcases ih h with h' | h'
        · exact Or.inl (by simp [h'])
        · exact Or.inr h'

theorem keys_nodup_objInsert {kvs : List (String × Json)} {k : String} {v : Json}
    (h : (kvs.map Prod.fst).Nodup) :
    ((objInsert kvs k v).map Prod.fst).Nodup := by
  induction kvs with
  | nil => simp [objInsert]
  | cons kv rest ih =>
    obtain ⟨k', v'⟩ := kv
    simp only [List.map_cons, List.nodup_cons] at h
    by_cases hk : k' = k
    · subst hk
      simpa [objInsert, List.nodup_cons] using h
    · simp only [objInsert, if_neg hk, List.map_cons, List.nodup_cons]
      refine ⟨fun hmem => ?_, ih h.2⟩
      rcases mem_keys_objInsert hmem with h' | h'
      · exact h.1 h'
      · exact hk h'

theorem objLookup_objInsert_self (kvs : List (String × Json)) (k : String) (v : Json) :
    objLookup (objInsert kvs k v) k = some v := by
  induction kvs with
  | nil => simp [objInsert, objLookup]
  | cons kv rest ih =>
    obtain ⟨k', v'⟩ := kv
    by_cases h : k' = k
    · subst h; simp [objInsert, objLookup]
    · simp [objInsert, objLookup, h, ih]

theorem objLookup_objInsert_ne (kvs : List (String × Json)) {k' k : String} (v : Json)
    (hne : k' ≠ k) : objLookup (objInsert kvs k' v) k = objLookup kvs k := by
  induction kvs with
  | nil => simp [objInsert, objLookup, hne]
  | cons kv rest ih =>
    obtain ⟨k₀, v₀⟩ := kv
    by_cases h : k₀ = k'
    · subst h; simp [objInsert, objLookup, hne]
    · by_cases h2 : k₀ = k
      · subst h2; simp [objInsert, objLookup, h]
      · simp [objInsert, objLookup, h, h2, ih]

theorem objInsert_of_not_mem_keys {kvs : List (String × Json)} {k : String} (v : Json)
    (h : k ∉ kvs.map Prod.fst) : objInsert kvs k v = kvs ++ [(k, v)] := by
  induction kvs with
  | nil => simp [objInsert]
  | cons kv rest ih =>
    obtain ⟨k', v'⟩ := kv
    simp only [List.map_cons, List.mem_cons, not_or] at h
    simp [objInsert, Ne.symm h.1, ih h.2]

/-! ### The bucket -/

theorem bucketGet_bucketPut_self (b : Bucket) (n : String) (o : StoredObject) :
    bucketGet (bucketPut b n o) n = some o := by
  induction b with
  | nil => simp [bucketPut, bucketGet]
  | cons e rest ih =>
    obtain ⟨n', o'⟩ := e
    by_cases h : n' = n
    · subst h; simp [bucketPut, bucketGet]
    · simp [bucketPut, bucketGet, h, ih]

/-! ### Characters and whitespace -/

theorem char_ne_of_toNat_ne {c d : Char} (h : c.toNat ≠ d.toNat) : c ≠ d :=
  fun he => h (he ▸ rfl)

theorem skipWs_cons_of_not_ws (c : Char) (r : List Char) (h : isWsChar c = false) :
    skipWs (c :: r) = c :: r := by
  simp [skipWs, h]

theorem skipWs_idem (s : List Char) : skipWs (skipWs s) = skipWs s := by
  induction s with
  | nil => rfl
  | cons c r ih =>
    by_cases h : isWsChar c
    · simpa [skipWs, h] using ih
    · simp [skipWs, h]

theorem parseValue_congr_ws {s₁ s₂ : List Char} (fuel : Nat)
    (h : skipWs s₁ = skipWs s₂) : parseValue fuel s₁ = parseValue fuel s₂ := by
  cases fuel with
  | zero => rfl
  | succ fuel => simp only [parseValue, h]

theorem skipWs_ws_cons (c : Char) (r : List Char) (h : isWsChar c = true) :
    skipWs (c :: r) = skipWs r := by
  simp [skipWs, h]

/-! ### Decimal numbers -/

theorem digitChar_toNat : ∀ n < 10, (digitChar n).toNat = 48 + n := by decide

theorem digitChar_isDigit : ∀ n < 10, isDigitCh (digitChar n) = true := by decide

theorem digitChar_ne_zero : ∀ n < 10, 0 < n → digitChar n ≠ '0' := by decide

theorem natToCharsGo_eq {f1 f2 n : Nat} (h1 : n < f1) (h2 : n < f2) :
    natToCharsGo f1 n = natToCharsGo f2 n := by
  induction f1 generalizing f2 n with
  | zero => omega
  | succ f1 ih =>
    cases f2 with
    | zero => omega
    | succ f2 =>
      simp only [natToCharsGo]
      by_cases h : n < 10
      · simp [h]
      · have hd1 : n / 10 < f1 := by omega
        have hd2 : n / 10 < f2 := by omega
        simp [h, ih hd1 hd2]

theorem natToCharsGo_eq_natToChars {f n : Nat} (h : n < f) :
    natToCharsGo f n = natToChars n :=
  natToCharsGo_eq h (by omega)

theorem natToChars_eq (n : Nat) :
    natToChars n =
      if n < 10 then [digitChar n]
      else natToChars (n / 10) ++ [digitChar (n % 10)] := by
  show natToCharsGo (n + 1) n = _
  rcases Nat.eq_zero_or_pos n with rfl | hn
  · rfl
  · simp only [natToCharsGo]
    by_cases h : n < 10
    · simp [h]
    · simp [h, natToCharsGo_eq_natToChars (show n / 10 < n by omega)]

theorem natToChars_ne_nil (n : Nat) : natToChars n ≠ [] := by
  rw [natToChars_eq]
  split <;> simp

theorem natToChars_digits (n : Nat) : ∀ c ∈ natToChars n, isDigitCh c = true := by
  induction n using Nat.strong_induction_on with
  | _ n ih =>
    rw [natToChars_eq]
    by_cases h : n < 10
    · intro c hc
      rw [if_pos h] at hc
      simp only [List.mem_singleton] at hc
      exact hc ▸ digitChar_isDigit n h
    · intro c hc
      rw [if_neg h] at hc
      rcases List.mem_append.1 hc with hc | hc
      · exact ih (n / 10) (by omega) c hc
      · simp only [List.mem_singleton] at hc
        exact hc ▸ digitChar_isDigit (n % 10) (by omega)

theorem digitsToNat_append (ds : List Char) (d : Char) :
    digitsToNat (ds ++ [d]) = digitsToNat ds * 10 + (d.toNat - 48) := by
  simp [digitsToNat, List.foldl_append]

theorem digitsToNat_natToChars (n : Nat) : digitsToNat (natToChars n) = n := by
  induction n using Nat.strong_induction_on with
  | _ n ih =>
    rw [natToChars_eq]
    by_cases h : n < 10
    · rw [if_pos h]
      have := digitChar_toNat n h
      simp [digitsToNat, this]
    · rw [if_neg h, digitsToNat_append, ih (n / 10) (by omega),
        digitChar_toNat (n % 10) (by omega)]
      omega

theorem float_not_follows {rest : List Char} (h : numStop rest = true) :
    floatFollows rest = false := by
  cases rest with
  | nil => rfl
  | cons c r =>
    simp only [numStop, Bool.and_eq_true, Bool.not_eq_true',
      beq_eq_false_iff_ne] at h
    obtain ⟨⟨⟨_, h1⟩, h2⟩, h3⟩ := h
    simp [floatFollows, h1, h2, h3]

theorem numStop_head_not_digit {c : Char} {r : List Char}
    (h : numStop (c :: r) = true) : isDigitCh c = false := by
  simp only [numStop, Bool.and_eq_true, Bool.not_eq_true'] at h
  exact h.1.1.1

theorem takeDigits_append {ds rest : List Char}
    (hds : ∀ c ∈ ds, isDigitCh c = true) (hrest : numStop rest = true) :
    takeDigits (ds ++ rest) = (ds, rest) := by
  induction ds with
  | nil =>
    cases rest with
    | nil => rfl
    | cons c r => simp [takeDigits, numStop_head_not_digit hrest]
  | cons c ds ih =>
    have hc := hds c (by simp)
    have hrec := ih (fun x hx => hds x (by simp [hx]))
    simp [takeDigits, hc, hrec]

theorem natToChars_head_pos {n : Nat} (hn : 0 < n) :
    ∃ c cs, natToChars n = c :: cs ∧ isDigitCh c = true ∧ c ≠ '0' := by
  induction n using Nat.strong_induction_on with
  | _ n ih =>
    rw [natToChars_eq]
    by_cases h : n < 10
    · exact ⟨digitChar n, [], by rw [if_pos h], digitChar_isDigit n h,
        digitChar_ne_zero n h hn⟩
    · obtain ⟨c, cs, heq, hdig, hne⟩ := ih (n / 10) (by omega) (by omega)
      exact ⟨c, cs ++ [digitChar (n % 10)], by rw [if_neg h, heq]; rfl, hdig, hne⟩

theorem parseNumAbs_natToChars (n : Nat) {rest : List Char}
    (hrest : numStop rest = true) :
    parseNumAbs (natToChars n ++ rest) = some (n, rest) := by
  rcases Nat.eq_zero_or_pos n with rfl | hn
  · have h0 : natToChars 0 = ['0'] := rfl
    rw [h0]
    simp [parseNumAbs, float_not_follows hrest]
  · obtain ⟨c, cs, heq, hdig, hne0⟩ := natToChars_head_pos hn
    have hall : ∀ x ∈ c :: cs, isDigitCh x = true := by
      rw [← heq]; exact natToChars_digits n
    rw [heq, List.cons_append]
    have htake : takeDigits (c :: (cs ++ rest)) = (c :: cs, rest) := by
      have := takeDigits_append hall hrest
      rwa [List.cons_append] at this
    simp only [parseNumAbs, if_neg hne0, if_pos hdig, htake,
      float_not_follows hrest, Bool.false_eq_true, if_false]
    rw [← heq, digitsToNat_natToChars]

theorem intToChars_head_not_minus_of_nonneg {n : Int} (hn : ¬n < 0) :
    ∃ c cs, intToChars n = c :: cs ∧ isDigitCh c = true := by
  rw [intToChars, if_neg hn]
  rcases Nat.eq_zero_or_pos n.toNat with h0 | hp
  · exact ⟨'0', [], by rw [h0]; rfl, by decide⟩
  · obtain ⟨c, cs, heq, hdig, _⟩ := natToChars_head_pos hp
    exact ⟨c, cs, heq, hdig⟩

theorem parseNumber_intToChars (n : Int) {rest : List Char}
    (hrest : numStop rest = true) :
    parseNumber (intToChars n ++ rest) = some (n, rest) := by
  by_cases hneg : n < 0
  · rw [intToChars, if_pos hneg, List.cons_append]
    simp only [parseNumber, if_pos rfl, if_true, parseNumAbs_natToChars (-n).toNat hrest,
      Option.some.injEq, Prod.mk.injEq, and_true]
    omega
  · obtain ⟨c, cs, heq, hdig⟩ := intToChars_head_not_minus_of_nonneg hneg
    have hcm : c ≠ '-' := by
      apply char_ne_of_toNat_ne
      simp only [isDigitCh, Bool.and_eq_true, decide_eq_true_eq] at hdig
      intro h
      rw [show ('-').toNat = 45 from rfl] at h
      omega
    rw [heq, List.cons_append]
    simp only [parseNumber, if_neg hcm]
    rw [← List.cons_append, ← heq, intToChars, if_neg hneg,
      parseNumAbs_natToChars n.toNat hrest]
    simp only [Option.some.injEq, Prod.mk.injEq, and_true]
    omega

/-! ### Strings -/

theorem toNat_ofNat_valid {n : Nat} (h : n.isValidChar) :
    (Char.ofNat n).toNat = n := by
  simp only [Char.ofNat, dif_pos h]
  rfl

theorem char_eq_of_toNat_eq {c : Char} {m : Nat} (h : c.toNat = m) :
    c = Char.ofNat m := by
  rw [← h, Char.ofNat_toNat]

theorem hexVal_hexDigitChar : ∀ k < 16, hexVal (hexDigitChar k) = some k := by
  decide

theorem hexVal4_hexDigitChar (a b c d : Nat) (ha : a < 16) (hb : b < 16)
    (hc : c < 16) (hd : d < 16) :
    hexVal4 (hexDigitChar a) (hexDigitChar b) (hexDigitChar c) (hexDigitChar d) =
      some (((a * 16 + b) * 16 + c) * 16 + d) := by
  simp only [hexVal4, hexVal_hexDigitChar a ha, hexVal_hexDigitChar b hb,
    hexVal_hexDigitChar c hc, hexVal_hexDigitChar d hd]

theorem parseStringBody_backslash (r : List Char) :
    parseStringBody ('\\' :: r) = parseEscape r := rfl

theorem parseEscape_u (r : List Char) :
    parseEscape ('u' :: r) = parseUEscape r := rfl

theorem parseStringBody_uEscape4 {n : Nat} (hlt : n < 65536)
    (hs : ¬(55296 ≤ n ∧ n ≤ 57343)) (k : List Char) :
    parseStringBody (uEscape4 n ++ k) = consFst (Char.ofNat n) (parseStringBody k) := by
  have hstep : parseStringBody (uEscape4 n ++ k) =
      parseUEscape (hexDigitChar (n / 4096 % 16) :: hexDigitChar (n / 256 % 16) ::
        hexDigitChar (n / 16 % 16) :: hexDigitChar (n % 16) :: k) := rfl
  rw [hstep]
  rw [parseUEscape]
  rw [hexVal4_hexDigitChar (n / 4096 % 16) (n / 256 % 16) (n / 16 % 16) (n % 16)
    (by omega) (by omega) (by omega) (by omega)]
  rw [show ((n / 4096 % 16 * 16 + n / 256 % 16) * 16 + n / 16 % 16) * 16 + n % 16 = n
    from by omega]
  simp only [Option.some.injEq]
  rw [if_neg (show ¬(55296 ≤ n ∧ n ≤ 56319) from by omega),
    if_neg (show ¬(56320 ≤ n ∧ n ≤ 57343) from by omega)]

theorem parseStringBody_surrogatePair {n : Nat} (h1 : 65536 ≤ n)
    (h2 : n < 1114112) (k : List Char) :
    parseStringBody (uEscape4 (55296 + (n - 65536) / 1024) ++
      (uEscape4 (56320 + (n - 65536) % 1024) ++ k)) =
      consFst (Char.ofNat n) (parseStringBody k) := by
  have e1 : uEscape4 (55296 + (n - 65536) / 1024) ++
      (uEscape4 (56320 + (n - 65536) % 1024) ++ k) =
      '\\' :: 'u' :: (hexDigitChar ((55296 + (n - 65536) / 1024) / 4096 % 16) ::
        hexDigitChar ((55296 + (n - 65536) / 1024) / 256 % 16) ::
        hexDigitChar ((55296 + (n - 65536) / 1024) / 16 % 16) ::
        hexDigitChar ((55296 + (n - 65536) / 1024) % 16) ::
        ('\\' :: 'u' :: hexDigitChar ((56320 + (n - 65536) % 1024) / 4096 % 16) ::
          hexDigitChar ((56320 + (n - 65536) % 1024) / 256 % 16) ::
          hexDigitChar ((56320 + (n - 65536) % 1024) / 16 % 16) ::
          hexDigitChar ((56320 + (n - 65536) % 1024) % 16) :: k)) := rfl
  rw [e1, parseStringBody_backslash, parseEscape_u]
  rw [parseUEscape]
  rw [hexVal4_hexDigitChar ((55296 + (n - 65536) / 1024) / 4096 % 16)
    ((55296 + (n - 65536) / 1024) / 256 % 16)
    ((55296 + (n - 65536) / 1024) / 16 % 16)
    ((55296 + (n - 65536) / 1024) % 16)
    (by omega) (by omega) (by omega) (by omega)]
  rw [show (((55296 + (n - 65536) / 1024) / 4096 % 16 * 16 +
      (55296 + (n - 65536) / 1024) / 256 % 16) * 16 +
      (55296 + (n - 65536) / 1024) / 16 % 16) * 16 +
      (55296 + (n - 65536) / 1024) % 16 = 55296 + (n - 65536) / 1024 from by omega]
  simp only [Option.some.injEq]
  rw [if_pos (show 55296 ≤ 55296 + (n - 65536) / 1024 ∧
      55296 + (n - 65536) / 1024 ≤ 56319 from by omega)]
  rw [parseLowSurrogate]
  rw [if_pos (show ('\\' = '\\' ∧ 'u' = 'u') from ⟨rfl, rfl⟩)]
  rw [hexVal4_hexDigitChar ((56320 + (n - 65536) % 1024) / 4096 % 16)
    ((56320 + (n - 65536) % 1024) / 256 % 16)
    ((56320 + (n - 65536) % 1024) / 16 % 16)
    ((56320 + (n - 65536) % 1024) % 16)
    (by omega) (by omega) (by omega) (by omega)]
  rw [show (((56320 + (n - 65536) % 1024) / 4096 % 16 * 16 +
      (56320 + (n - 65536) % 1024) / 256 % 16) * 16 +
      (56320 + (n - 65536) % 1024) / 16 % 16) * 16 +
      (56320 + (n - 65536) % 1024) % 16 = 56320 + (n - 65536) % 1024 from by omega]
  simp only [Option.some.injEq]
  rw [if_pos (show 56320 ≤ 56320 + (n - 65536) % 1024 ∧
      56320 + (n - 65536) % 1024 ≤ 57343 from by omega)]
  rw [show 65536 + (55296 + (n - 65536) / 1024 - 55296) * 1024 +
      (56320 + (n - 65536) % 1024 - 56320) = n from by omega]

theorem parseStringBody_escapeChar (c : Char) (k : List Char) :
    parseStringBody (escapeChar c ++ k) = consFst c (parseStringBody k) := by
  have hval : c.toNat.isValidChar := c.valid
  by_cases h1 : c = '"'
  · subst h1; rfl
  · by_cases h2 : c = '\\'
    · subst h2; rfl
    · by_cases h3 : c = '\n'
      · subst h3; rfl
      · by_cases h4 : c = '\r'
        · subst h4; rfl
        · by_cases h5 : c = '\t'
          · subst h5; rfl
          · by_cases h6 : c.toNat = 8
            · rw [char_eq_of_toNat_eq h6]; rfl
            · by_cases h7 : c.toNat = 12
              · rw [char_eq_of_toNat_eq h7]; rfl
              · by_cases h8 : 32 ≤ c.toNat ∧ c.toNat ≤ 126
                · have hesc : escapeChar c = [c] := by
                    simp only [escapeChar, if_neg h1, if_neg h2, if_neg h3,
                      if_neg h4, if_neg h5, if_neg h6, if_neg h7, if_pos h8]
                  rw [hesc, List.cons_append]
                  have hlt : ¬c.toNat < 32 := by omega
                  simp only [parseStringBody, if_neg h1, if_neg h2, if_neg hlt,
                    Bool.false_eq_true, if_false, List.nil_append]
                · by_cases h9 : c.toNat < 65536
                  · have hesc : escapeChar c = uEscape4 c.toNat := by
                      simp only [escapeChar, if_neg h1, if_neg h2, if_neg h3,
                        if_neg h4, if_neg h5, if_neg h6, if_neg h7, if_neg h8,
                        if_pos h9]
                    rw [hesc, parseStringBody_uEscape4 h9
                      (by rcases hval with h | h <;> omega) k, Char.ofNat_toNat]
                  · have hesc : escapeChar c = uEscape4 (55296 + (c.toNat - 65536) / 1024) ++
                        uEscape4 (56320 + (c.toNat - 65536) % 1024) := by
                      simp only [escapeChar, if_neg h1, if_neg h2, if_neg h3,
                        if_neg h4, if_neg h5, if_neg h6, if_neg h7, if_neg h8,
                        if_neg h9]
                    have hub : c.toNat < 1114112 := by
                      rcases hval with h | h <;> omega
                    rw [hesc, List.append_assoc, parseStringBody_surrogatePair
                      (by omega) hub k, Char.ofNat_toNat]

theorem parseStringBody_dumpBody (s : List Char) (k : List Char) :
    parseStringBody (s.flatMap escapeChar ++ '"' :: k) = some (s, k) := by
  induction s with
  | nil => rfl
  | cons c ss ih =>
    rw [List.flatMap_cons, List.append_assoc, parseStringBody_escapeChar, ih]
    rfl

/-! ### Serialized values: head characters and the value round trip -/

theorem isWsChar_eq_false {c : Char} (h : 33 ≤ c.toNat) : isWsChar c = false := by
  simp only [isWsChar, Bool.or_eq_false_iff, decide_eq_false_iff_not]
  refine ⟨⟨⟨fun he => ?_, fun he => ?_⟩, fun he => ?_⟩, fun he => ?_⟩ <;>
    (subst he; exact absurd h (by decide))

theorem intToChars_head (n : Int) :
    ∃ c cs, intToChars n = c :: cs ∧ 45 ≤ c.toNat ∧ c.toNat ≤ 57 := by
  by_cases hneg : n < 0
  · exact ⟨'-', natToChars (-n).toNat, by rw [intToChars, if_pos hneg],
      by decide, by decide⟩
  · rcases Nat.eq_zero_or_pos n.toNat with h0 | hp
    · refine ⟨'0', [], ?_, by decide, by decide⟩
      rw [intToChars, if_neg hneg, h0]
      rfl
    · obtain ⟨c, cs, heq, hd, _⟩ := natToChars_head_pos hp
      simp only [isDigitCh, Bool.and_eq_true, decide_eq_true_eq] at hd
      exact ⟨c, cs, by rw [intToChars, if_neg hneg, heq], by omega, by omega⟩

theorem dumpChars_head (v : Json) :
    ∃ c cs, dumpChars v = c :: cs ∧ 34 ≤ c.toNat ∧ c.toNat ≤ 123 ∧
      c ≠ ']' ∧ c ≠ '}' := by
  cases v with
  | null =>
    exact ⟨'n', ['u', 'l', 'l'], by rw [dumpChars], by decide, by decide,
      by decide, by decide⟩
  | bool b =>
    cases b with
    | true =>
      exact ⟨'t', ['r', 'u', 'e'], by rw [dumpChars], by decide, by decide,
        by decide, by decide⟩
    | false =>
      exact ⟨'f', ['a', 'l', 's', 'e'], by rw [dumpChars], by decide, by decide,
        by decide, by decide⟩
  | num n =>
    obtain ⟨c, cs, heq, h45, h57⟩ := intToChars_head n
    refine ⟨c, cs, by rw [dumpChars, heq], by omega, by omega, ?_, ?_⟩
    · exact fun he => absurd (he ▸ h57) (by decide)
    · exact fun he => absurd (he ▸ h57) (by decide)
  | str s =>
    refine ⟨'"', s.data.flatMap escapeChar ++ ['"'], ?_, by decide, by decide,
      by decide, by decide⟩
    rw [dumpChars]
    rfl
  | arr xs =>
    exact ⟨'[', dumpItems xs ++ [']'], by rw [dumpChars]; simp, by decide,
      by decide, by decide, by decide⟩
  | obj kvs =>
    exact ⟨'{', dumpMembers kvs ++ ['}'], by rw [dumpChars]; simp, by decide,
      by decide, by decide, by decide⟩

theorem dumpChars_length_pos (v : Json) : 1 ≤ (dumpChars v).length := by
  obtain ⟨c, cs, heq, -, -, -, -⟩ := dumpChars_head v
  rw [heq]
  simp

theorem parseItems_congr_ws (fuel : Nat) (s₁ s₂ : List Char) (acc : List Json)
    (h : skipWs s₁ = skipWs s₂) :
    parseItems fuel s₁ acc = parseItems fuel s₂ acc := by
  cases fuel with
  | zero => rfl
  | succ fuel => rw [parseItems, parseItems, parseValue_congr_ws fuel h]

theorem string_mk_data (s : String) : String.mk s.data = s := rfl

theorem parseValue_ws (fuel : Nat) (c : Char) (s : List Char)
    (h : isWsChar c = true) :
    parseValue fuel (c :: s) = parseValue fuel s :=
  parseValue_congr_ws fuel (skipWs_ws_cons c s h)

theorem parseValue_cons (fuel : Nat) (c : Char) (r : List Char)
    (hws : isWsChar c = false) :
    parseValue (fuel + 1) (c :: r) =
      (if c = '{' then
        if (skipWs r).head? = some '}' then some (.obj [], (skipWs r).tail)
        else parseMembers fuel (skipWs r) []
      else if c = '[' then
        if (skipWs r).head? = some ']' then some (.arr [], (skipWs r).tail)
        else parseItems fuel (skipWs r) []
      else if c = '"' then
        match parseStringBody r with
        | some (cs, rest) => some (.str ⟨cs⟩, rest)
        | none => none
      else if c = 't' then
        match r with
        | 'r' :: 'u' :: 'e' :: r2 => some (.bool true, r2)
        | _ => none
      else if c = 'f' then
        match r with
        | 'a' :: 'l' :: 's' :: 'e' :: r2 => some (.bool false, r2)
        | _ => none
      else if c = 'n' then
        match r with
        | 'u' :: 'l' :: 'l' :: r2 => some (.null, r2)
        | _ => none
      else
        match parseNumber (c :: r) with
        | some (n, rest) => some (.num n, rest)
        | none => none) := by
  rw [parseValue, skipWs_cons_of_not_ws c r hws]

theorem dumpMembers_cons_head (k : String) (v : Json) (m : List (String × Json)) :
    ∃ L, dumpMembers ((k, v) :: m) = '"' :: L := by
  cases m with
  | nil =>
    refine ⟨k.data.flatMap escapeChar ++ '"' :: ':' :: ' ' :: dumpChars v, ?_⟩
    rw [dumpMembers, dumpStringChars]
    simp
  | cons a b =>
    refine ⟨k.data.flatMap escapeChar ++ '"' :: ':' :: ' ' ::
      (dumpChars v ++ ',' :: ' ' :: dumpMembers (a :: b)), ?_⟩
    rw [dumpMembers, dumpStringChars]
    simp

theorem parseMembers_quote (fuel : Nat) (r : List Char)
    (acc : List (String × Json)) :
    parseMembers (fuel + 1) ('"' :: r) acc =
      (match parseStringBody r with
       | some (kcs, r2) =>
         match skipWs r2 with
         | ':' :: r3 =>
           match parseValue fuel r3 with
           | some (v, r4) =>
             match skipWs r4 with
             | ',' :: r5 => parseMembers fuel (skipWs r5) (objInsert acc ⟨kcs⟩ v)
             | '}' :: r5 => some (.obj (objInsert acc ⟨kcs⟩ v), r5)
             | _ => none
           | none => none
         | _ => none
       | none => none) := by
  rw [parseMembers]
  rw [if_pos rfl]

mutual

theorem parseValue_dump (fuel : Nat) (v : Json) (rest : List Char)
    (hwf : JsonWF v) (hfuel : (dumpChars v).length ≤ fuel)
    (hrest : numStop rest = true) :
    parseValue fuel (dumpChars v ++ rest) = some (v, rest) := by
  cases fuel with
  | zero => exact absurd hfuel (by have := dumpChars_length_pos v; omega)
  | succ fuel =>
    cases hwf with
    | null => exact rfl
    | bool b => cases b with | true => exact rfl | false => exact rfl
    | num n =>
      obtain ⟨c, cs, heq, h45, h57⟩ := intToChars_head n
      rw [show dumpChars (.num n) = intToChars n from by rw [dumpChars], heq,
        List.cons_append,
        parseValue_cons fuel c (cs ++ rest) (isWsChar_eq_false (by omega))]
      rw [if_neg (fun he => absurd (he ▸ h57) (by decide)),
        if_neg (fun he => absurd (he ▸ h57) (by decide)),
        if_neg (fun he => absurd (he ▸ h45) (by decide)),
        if_neg (fun he => absurd (he ▸ h57) (by decide)),
        if_neg (fun he => absurd (he ▸ h57) (by decide)),
        if_neg (fun he => absurd (he ▸ h57) (by decide))]
      rw [← List.cons_append, ← heq, parseNumber_intToChars n hrest]
    | str s =>
      rw [show dumpChars (.str s) = '"' :: (s.data.flatMap escapeChar ++ ['"'])
          from by rw [dumpChars]; rfl]
      rw [show ('"' :: (s.data.flatMap escapeChar ++ ['"'])) ++ rest
          = '"' :: (s.data.flatMap escapeChar ++ '"' :: rest) from by simp]
      rw [parseValue_cons fuel '"' _ rfl]
      simp [parseStringBody_dumpBody]
    | arr xs hwfxs =>
      have hd : dumpChars (.arr xs) = '[' :: dumpItems xs ++ [']'] := by
        rw [dumpChars]
      rw [hd, show ('[' :: dumpItems xs ++ [']']) ++ rest
          = '[' :: (dumpItems xs ++ ']' :: rest) from by simp]
      rw [parseValue_cons fuel '[' _ rfl]
      rw [if_neg (show ¬('[' : Char) = '{' from by decide), if_pos rfl]
      cases xs with
      | nil =>
        rw [show dumpItems [] = ([] : List Char) from by rw [dumpItems]]
        rw [show skipWs ([] ++ ']' :: rest) = ']' :: rest from rfl]
        rfl
      | cons x xs' =>
        obtain ⟨c, cs, hx, h34, h123, hne1, hne2⟩ := dumpChars_head x
        obtain ⟨T, hT⟩ : ∃ T, dumpItems (x :: xs') = dumpChars x ++ T := by
          cases xs' with
          | nil => exact ⟨[], by rw [dumpItems, List.append_nil]⟩
          | cons y r' => exact ⟨[',', ' '] ++ dumpItems (y :: r'),
              by rw [dumpItems]; simp⟩
        have hshape : dumpItems (x :: xs') ++ ']' :: rest =
            c :: (cs ++ T ++ ']' :: rest) := by
          rw [hT, hx]; simp
        rw [hshape, skipWs_cons_of_not_ws c _ (isWsChar_eq_false (by omega))]
        rw [if_neg (show ¬(c :: (cs ++ T ++ ']' :: rest)).head? = some ']' from by
          simp [hne1])]
        rw [← hshape]
        have hlen : (dumpItems (x :: xs')).length < fuel := by
          rw [hd] at hfuel
          simp only [List.length_cons, List.length_append, List.length_singleton]
            at hfuel
          omega
        rw [parseItems_dump fuel (x :: xs') [] rest (by simp) hwfxs hlen]
        simp
    | obj kvs hwfkvs hnodup =>
      have hd : dumpChars (.obj kvs) = '{' :: dumpMembers kvs ++ ['}'] := by
        rw [dumpChars]
      rw [hd, show ('{' :: dumpMembers kvs ++ ['}']) ++ rest
          = '{' :: (dumpMembers kvs ++ '}' :: rest) from by simp]
      rw [parseValue_cons fuel '{' _ rfl]
      rw [if_pos rfl]
      cases kvs with
      | nil =>
        rw [show dumpMembers [] = ([] : List Char) from by rw [dumpMembers]]
        rw [show skipWs ([] ++ '}' :: rest) = '}' :: rest from rfl]
        rfl
      | cons kv m =>
        obtain ⟨k, v0⟩ := kv
        obtain ⟨T, hT⟩ : ∃ T, dumpMembers ((k, v0) :: m) =
            '"' :: (k.data.flatMap escapeChar ++ '"' :: (':' :: ' ' :: (dumpChars v0 ++ T))) := by
          cases m with
          | nil => exact ⟨[], by rw [dumpMembers, dumpStringChars]; simp⟩
          | cons m1 m' => exact ⟨[',', ' '] ++ dumpMembers (m1 :: m'),
              by rw [dumpMembers, dumpStringChars]; simp⟩
        have hshape : dumpMembers ((k, v0) :: m) ++ '}' :: rest =
            '"' :: (k.data.flatMap escapeChar ++ '"' :: (':' :: ' ' ::
              (dumpChars v0 ++ T)) ++ '}' :: rest) := by
          rw [hT]; simp
        rw [hshape, skipWs_cons_of_not_ws '"' _ rfl]
        rw [if_neg (show ¬('"' :: (k.data.flatMap escapeChar ++ '"' :: (':' :: ' ' ::
              (dumpChars v0 ++ T)) ++ '}' :: rest)).head? = some '}' from by simp)]
        rw [← hshape]
        have hlen : (dumpMembers ((k, v0) :: m)).length < fuel := by
          rw [hd] at hfuel
          simp only [List.length_cons, List.length_append, List.length_singleton]
            at hfuel
          omega
        rw [parseMembers_dump fuel ((k, v0) :: m) [] rest (by simp) hwfkvs
          (by simpa using hnodup) hlen]
        simp

theorem parseItems_dump (fuel : Nat) (xs : List Json) (acc : List Json)
    (rest : List Char) (hne : xs ≠ []) (hwf : ∀ x ∈ xs, JsonWF x)
    (hfuel : (dumpItems xs).length < fuel) :
    parseItems fuel (dumpItems xs ++ ']' :: rest) acc = some (.arr (acc ++ xs), rest) := by
  cases fuel with
  | zero => omega
  | succ fuel =>
    cases xs with
    | nil => exact absurd rfl hne
    | cons x xs' =>
      rw [parseItems]
      cases xs' with
      | nil =>
        have hs : dumpItems [x] = dumpChars x := by rw [dumpItems]
        rw [hs] at hfuel ⊢
        rw [parseValue_dump fuel x (']' :: rest) (hwf x (by simp)) (by omega) rfl]
        rfl
      | cons y r' =>
        have hs : dumpItems (x :: y :: r') ++ ']' :: rest =
            dumpChars x ++ (',' :: ' ' :: (dumpItems (y :: r') ++ ']' :: rest)) := by
          rw [dumpItems]; simp
        have hlx := dumpChars_length_pos x
        have hly : (dumpItems (x :: y :: r')).length =
            (dumpChars x).length + 2 + (dumpItems (y :: r')).length := by
          rw [dumpItems]; simp; omega
        rw [hs]
        rw [parseValue_dump fuel x (',' :: ' ' :: (dumpItems (y :: r') ++ ']' :: rest))
          (hwf x (by simp)) (by omega) rfl]
        show parseItems fuel (' ' :: (dumpItems (y :: r') ++ ']' :: rest))
          (acc ++ [x]) = _
        rw [parseItems_congr_ws fuel (' ' :: (dumpItems (y :: r') ++ ']' :: rest))
          (dumpItems (y :: r') ++ ']' :: rest) (acc ++ [x]) rfl]
        rw [parseItems_dump fuel (y :: r') (acc ++ [x]) rest (by simp)
          (fun z hz => hwf z (by simp [hz])) (by omega)]
        simp

theorem parseMembers_dump (fuel : Nat) (kvs acc : List (String × Json))
    (rest : List Char) (hne : kvs ≠ []) (hwf : ∀ kv ∈ kvs, JsonWF kv.2)
    (hnodup : ((acc ++ kvs).map Prod.fst).Nodup)
    (hfuel : (dumpMembers kvs).length < fuel) :
    parseMembers fuel (dumpMembers kvs ++ '}' :: rest) acc =
      some (.obj (acc ++ kvs), rest) := by
  cases fuel with
  | zero => omega
  | succ fuel =>
    cases kvs with
    | nil => exact absurd rfl hne
    | cons kv m =>
      obtain ⟨k, v0⟩ := kv
      have hkacc : k ∉ acc.map Prod.fst := by
        simp only [List.map_append, List.nodup_append] at hnodup
        exact fun hmem => hnodup.2.2 hmem (by simp)
      have hlv := dumpChars_length_pos v0
      cases m with
      | nil =>
        have hs : dumpMembers [(k, v0)] ++ '}' :: rest =
            '"' :: (k.data.flatMap escapeChar ++ '"' ::
              (':' :: ' ' :: (dumpChars v0 ++ '}' :: rest))) := by
          rw [dumpMembers, dumpStringChars]; simp
        have hlen : (dumpMembers [(k, v0)]).length =
            2 + (k.data.flatMap escapeChar).length + 2 + (dumpChars v0).length := by
          rw [dumpMembers, dumpStringChars]; simp; omega
        rw [hs, parseMembers_quote fuel _ acc, parseStringBody_dumpBody]
        show (match skipWs (':' :: ' ' :: (dumpChars v0 ++ '}' :: rest)) with
              | ':' :: r3 =>
                match parseValue fuel r3 with
                | some (v, r4) =>
                  match skipWs r4 with
                  | ',' :: r5 => parseMembers fuel (skipWs r5) (objInsert acc ⟨k.data⟩ v)
                  | '}' :: r5 => some (.obj (objInsert acc ⟨k.data⟩ v), r5)
                  | _ => none
                | none => none
              | _ => none) = _
        rw [skipWs_cons_of_not_ws ':' _ rfl]
        show (match parseValue fuel (' ' :: (dumpChars v0 ++ '}' :: rest)) with
              | some (v, r4) =>
                match skipWs r4 with
                | ',' :: r5 => parseMembers fuel (skipWs r5) (objInsert acc ⟨k.data⟩ v)
                | '}' :: r5 => some (.obj (objInsert acc ⟨k.data⟩ v), r5)
                | _ => none
              | none => none) = _
        rw [parseValue_ws fuel ' ' _ rfl]
        rw [parseValue_dump fuel v0 ('}' :: rest) (hwf (k, v0) (by simp)) (by omega) rfl]
        show some (Json.obj (objInsert acc (String.mk k.data) v0), rest) = _
        rw [string_mk_data, objInsert_of_not_mem_keys v0 hkacc]
      | cons m1 m' =>
        have hs : dumpMembers ((k, v0) :: m1 :: m') ++ '}' :: rest =
            '"' :: (k.data.flatMap escapeChar ++ '"' ::
              (':' :: ' ' :: (dumpChars v0 ++ ',' :: ' ' ::
                (dumpMembers (m1 :: m') ++ '}' :: rest)))) := by
          rw [dumpMembers, dumpStringChars]; simp
        have hlen : (dumpMembers ((k, v0) :: m1 :: m')).length =
            2 + (k.data.flatMap escapeChar).length + 2 + (dumpChars v0).length +
              2 + (dumpMembers (m1 :: m')).length := by
          rw [dumpMembers, dumpStringChars]; simp; omega
        rw [hs, parseMembers_quote fuel _ acc, parseStringBody_dumpBody]
        show (match skipWs (':' :: ' ' :: (dumpChars v0 ++ ',' :: ' ' ::
                (dumpMembers (m1 :: m') ++ '}' :: rest))) with
              | ':' :: r3 =>
                match parseValue fuel r3 with
                | some (v, r4) =>
                  match skipWs r4 with
                  | ',' :: r5 => parseMembers fuel (skipWs r5) (objInsert acc ⟨k.data⟩ v)
                  | '}' :: r5 => some (.obj (objInsert acc ⟨k.data⟩ v), r5)
                  | _ => none
                | none => none
              | _ => none) = _
        rw [skipWs_cons_of_not_ws ':' _ rfl]
        show (match parseValue fuel (' ' :: (dumpChars v0 ++ ',' :: ' ' ::
                (dumpMembers (m1 :: m') ++ '}' :: rest))) with
              | some (v, r4) =>
                match skipWs r4 with
                | ',' :: r5 => parseMembers fuel (skipWs r5) (objInsert acc ⟨k.data⟩ v)
                | '}' :: r5 => some (.obj (objInsert acc ⟨k.data⟩ v), r5)
                | _ => none
              | none => none) = _
        rw [parseValue_ws fuel ' ' _ rfl]
        rw [parseValue_dump fuel v0 (',' :: ' ' ::
          (dumpMembers (m1 :: m') ++ '}' :: rest)) (hwf (k, v0) (by simp)) (by omega) rfl]
        show parseMembers fuel (skipWs (' ' :: (dumpMembers (m1 :: m') ++ '}' :: rest)))
          (objInsert acc (String.mk k.data) v0) = _
        rw [string_mk_data, objInsert_of_not_mem_keys v0 hkacc]
        obtain ⟨km, vm⟩ := m1
        simp only at *
        obtain ⟨L, hL⟩ := dumpMembers_cons_head km vm m'
        have hskip : skipWs (' ' :: (dumpMembers ((km, vm) :: m') ++ '}' :: rest)) =
            dumpMembers ((km, vm) :: m') ++ '}' :: rest := by
          rw [hL, List.cons_append, skipWs_ws_cons ' ' _ rfl,
            skipWs_cons_of_not_ws '"' _ rfl]
        rw [hskip]
        rw [parseMembers_dump fuel ((km, vm) :: m') (acc ++ [(k, v0)]) rest (by simp)
          (fun z hz => hwf z (by simp [hz]))
          (by simpa [List.append_assoc] using hnodup) (by omega)]
        simp

end

/-- The serializer/parser round trip: every Python-representable JSON value
(`JsonWF`: nested objects have distinct keys) is recovered exactly by
`json.loads` from its `json.dumps` form. -/
theorem jsonLoads_dumps (v : Json) (hwf : JsonWF v) : jsonLoads (dumps v) = some v := by
  have h1 : parseValue ((dumps v).length + 1) (dumps v).data = some (v, []) := by
    have hdata : (dumps v).data = dumpChars v ++ [] := by
      show dumpChars v = dumpChars v ++ []
      simp
    rw [hdata]
    exact parseValue_dump ((dumps v).length + 1) v [] hwf
      (by show (dumpChars v).length ≤ (dumpChars v).length + 1; omega) rfl
  rw [jsonLoads, h1]
  rfl

/-! ### Dictionaries, filenames and the gallery pipeline -/

theorem mem_objInsert {kvs : List (String × Json)} {k : String} {v : Json}
    {kv : String × Json} (h : kv ∈ objInsert kvs k v) :
    kv ∈ kvs ∨ kv = (k, v) := by
  induction kvs with
  | nil => simpa [objInsert] using h
  | cons kv0 rest ih =>
    obtain ⟨k0, v0⟩ := kv0
    by_cases hk : k0 = k
    · have h' : kv = (k, v) ∨ kv ∈ rest := by
        subst hk
        simpa [objInsert, List.mem_cons] using h
      rcases h' with h' | h'
      · exact Or.inr h'
      · exact Or.inl (by simp [h'])
    · have h' : kv = (k0, v0) ∨ kv ∈ objInsert rest k v := by
        simpa [objInsert, hk, List.mem_cons] using h
      rcases h' with h' | h'
      · exact Or.inl (by simp [h'])
      · rcases ih h' with h2 | h2
        · exact Or.inl (by simp [h2])
        · exact Or.inr h2

theorem splitext_recompose (s : String) : (splitext s).1 ++ (splitext s).2 = s := by
  have happ : ∀ a b : List Char, (⟨a⟩ : String) ++ (⟨b⟩ : String) = ⟨a ++ b⟩ :=
    fun a b => rfl
  rw [splitext]
  split
  · rw [happ, List.take_append_drop]
  · rw [happ]
    simp

theorem bucketViewOk_spec {b : Bucket} (h : bucketViewOk b = true) :
    ∀ f ∈ list_cloud_files b, isImageName f = true → metadataDictOk b f = true := by
  intro f hf hif
  rw [bucketViewOk, List.all_eq_true] at h
  have := h f hf
  simpa [hif] using this

theorem metadataDictOk_obj {b : Bucket} {f : String}
    (h : metadataDictOk b f = true) :
    ∃ kvs, get_json_from_cloud ((splitext f).1 ++ ".json") b = some (.obj kvs) ∧
      (objLookup kvs "upload_timestamp" = none ∨
        ∃ n : Int, objLookup kvs "upload_timestamp" = some (.num n)) := by
  cases hget : get_json_from_cloud ((splitext f).1 ++ ".json") b with
  | none =>
    simp only [metadataDictOk, hget] at h
    exact absurd h (by simp)
  | some v =>
    cases v with
    | obj kvs =>
      refine ⟨kvs, rfl, ?_⟩
      cases hts : objLookup kvs "upload_timestamp" with
      | none => exact Or.inl rfl
      | some tv =>
        cases tv with
        | num n => exact Or.inr ⟨n, rfl⟩
        | null => simp only [metadataDictOk, hget, hts] at h; exact absurd h (by simp)
        | bool x => simp only [metadataDictOk, hget, hts] at h; exact absurd h (by simp)
        | str x => simp only [metadataDictOk, hget, hts] at h; exact absurd h (by simp)
        | arr x => simp only [metadataDictOk, hget, hts] at h; exact absurd h (by simp)
        | obj x => simp only [metadataDictOk, hget, hts] at h; exact absurd h (by simp)
    | null => simp only [metadataDictOk, hget] at h; exact absurd h (by simp)
    | bool x => simp only [metadataDictOk, hget] at h; exact absurd h (by simp)
    | num x => simp only [metadataDictOk, hget] at h; exact absurd h (by simp)
    | str x => simp only [metadataDictOk, hget] at h; exact absurd h (by simp)
    | arr x => simp only [metadataDictOk, hget] at h; exact absurd h (by simp)

theorem entryOf_timestamp {b : Bucket} {f : String}
    (h : metadataDictOk b f = true) :
    ∃ n : Int, (entryOf b f).timestamp = .num n := by
  obtain ⟨kvs, hget, hts⟩ := metadataDictOk_obj h
  rw [entryOf, hget]
  rcases hts with hts | ⟨n, hts⟩
  · exact ⟨0, by simp [buildEntry, hts]⟩
  · exact ⟨n, by simp [buildEntry, hts]⟩

theorem collectEntries_eq (b : Bucket) (files : List String)
    (h : ∀ f ∈ files, isImageName f = true → metadataDictOk b f = true) :
    collectEntries files b =
      some ((files.filter (fun f => isImageName f)).map (entryOf b)) := by
  induction files with
  | nil => rfl
  | cons f fs ih =>
    have ihs := ih (fun g hg => h g (by simp [hg]))
    by_cases hf : isImageName f = true
    · obtain ⟨kvs, hget, -⟩ := metadataDictOk_obj (h f (by simp) hf)
      rw [collectEntries, if_pos hf, hget, ihs]
      simp [List.filter_cons, hf, entryOf, hget]
    · rw [collectEntries, if_neg (by simpa using hf), ihs]
      simp [List.filter_cons, hf]

theorem entryDescLe_trans : ∀ a b c : GalleryEntry,
    entryDescLe a b → entryDescLe b c → entryDescLe a c := by
  intro a b c hab hbc
  simp only [entryDescLe, decide_eq_true_eq] at *
  omega

theorem entryDescLe_total : ∀ a b : GalleryEntry,
    entryDescLe a b || entryDescLe b a := by
  intro a b
  simp only [entryDescLe, Bool.or_eq_true, decide_eq_true_eq]
  omega

theorem gallery_eq (b : Bucket) (h : bucketViewOk b = true) :
    get_all_images_with_metadata b =
      some (List.mergeSort
        (((list_cloud_files b).filter (fun f => isImageName f)).map (entryOf b))
        entryDescLe) := by
  rw [get_all_images_with_metadata,
    collectEntries_eq b (list_cloud_files b) (bucketViewOk_spec h)]
  have hok : sortKeysOk
      (((list_cloud_files b).filter (fun f => isImageName f)).map (entryOf b)) = true := by
    rw [sortKeysOk, Bool.or_eq_true]
    right
    rw [List.all_eq_true]
    intro e he
    simp only [List.mem_map, List.mem_filter] at he
    obtain ⟨f, ⟨hfmem, hfim⟩, rfl⟩ := he
    obtain ⟨n, hn⟩ := entryOf_timestamp (bucketViewOk_spec h f hfmem hfim)
    rw [hn]
  simp [hok]

/-! ## Claims -/

/-- C7: the metadata filename derived on save (`upload_json_to_cloud`) and
the one the gallery loop looks up are the same expression — the image
filename with its `splitext` extension replaced by `.json` — and the saved
document is stored under exactly that name, so the gallery's lookup always
finds what save wrote.  (The gallery derivation at `src/main.py:114` is
literally the same `os.path.splitext(file)[0] + ".json"` as the store
derivation at line 82; the third conjunct shows the uploaded blob sits
under that name.) -/
theorem c7_derived_metadata_filename (d : List (String × Json)) (f : String)
    (b : Bucket) (now : Int) :
    (upload_json_to_cloud d f b now).1 = (splitext f).1 ++ ".json" ∧
    (splitext f).1 ++ (splitext f).2 = f ∧
    bucketGet (upload_json_to_cloud d f b now).2.2 ((splitext f).1 ++ ".json") =
      some ⟨dumps (Json.obj (objInsert d "upload_timestamp" (Json.num now))),
        "application/json"⟩ :=
  ⟨rfl, splitext_recompose f, bucketGet_bucketPut_self b _ _⟩

/-- C3: an uploaded file whose name does not end in `.jpg`/`.jpeg`
(case-insensitively) leaves the object store untouched, raises nothing, and
the handler still answers with the redirect to the index page. -/
theorem c3_upload_non_image_no_store_write (filename content aiResponseText : String)
    (b : Bucket) (now : Int) (h : isImageName filename = false) :
    upload filename content aiResponseText b now = some (b, "/") := by
  rw [upload, if_neg (fun hc => absurd hc.2 (by simp [h]))]

theorem c3_upload_non_image_no_store_write_witness :
    isImageName "evil.png" = false ∧
    upload "evil.png" "BYTES" "junk" [("x.jpg", ⟨"I", "image/jpeg"⟩)] 5 =
      some ([("x.jpg", ⟨"I", "image/jpeg"⟩)], "/") :=
  ⟨rfl, c3_upload_non_image_no_store_write "evil.png" "BYTES" "junk"
    [("x.jpg", ⟨"I", "image/jpeg"⟩)] 5 rfl⟩

/-- C8: `upload_json_to_cloud` mutates the caller's dictionary in place:
viewed through a heap of Python dictionaries, the dictionary at the caller's
address itself carries the inserted `upload_timestamp` key after the call
(the function updates the same address rather than a copy). -/
theorem c8_upload_json_mutates_caller_dict (heap : DictHeap) (addr : Nat)
    (f : String) (b : Bucket) (now : Int) (h : addr < heap.length) :
    (upload_json_to_cloud_onHeap heap addr f b now).2.1.getD addr [] =
      objInsert (heap.getD addr []) "upload_timestamp" (Json.num now) ∧
    objLookup ((upload_json_to_cloud_onHeap heap addr f b now).2.1.getD addr [])
      "upload_timestamp" = some (Json.num now) := by
  have h1 : (upload_json_to_cloud_onHeap heap addr f b now).2.1 =
      heap.set addr (objInsert (heap.getD addr []) "upload_timestamp"
        (Json.num now)) := rfl
  have h2 : (heap.set addr (objInsert (heap.getD addr []) "upload_timestamp"
        (Json.num now))).getD addr [] =
      objInsert (heap.getD addr []) "upload_timestamp" (Json.num now) := by
    simp [List.getD, List.getElem?_set_self (by simpa using h)]
  rw [h1, h2]
  exact ⟨rfl, objLookup_objInsert_self _ _ _⟩

theorem c8_upload_json_mutates_caller_dict_witness :
    (0 : Nat) < ([[("title", Json.str "T")]] : DictHeap).length ∧
    (upload_json_to_cloud_onHeap [[("title", Json.str "T")]] 0 "a.jpg" [] 9).2.1.getD 0 [] =
      objInsert [("title", Json.str "T")] "upload_timestamp" (Json.num 9) ∧
    objLookup ((upload_json_to_cloud_onHeap [[("title", Json.str "T")]] 0 "a.jpg" [] 9).2.1.getD 0 [])
      "upload_timestamp" = some (Json.num 9) :=
  ⟨by decide, c8_upload_json_mutates_caller_dict [[("title", Json.str "T")]] 0
    "a.jpg" [] 9 (by decide)⟩

/-- C9: when a metadata document exists but lacks the `title`, the
`description` or the `upload_timestamp` field — each field independently,
in any combination — the gallery entry built for its image carries the
default `"No title available"`, `"No description available"` or timestamp
`0` respectively for each absent field, and the entry still appears in the
gallery rather than being dropped or raising. -/
theorem c9_missing_fields_defaults (b : Bucket) (f : String)
    (kvs : List (String × Json)) (hok : bucketViewOk b = true)
    (hmem : f ∈ list_cloud_files b) (him : isImageName f = true)
    (hget : get_json_from_cloud ((splitext f).1 ++ ".json") b = some (Json.obj kvs)) :
    (objLookup kvs "title" = none →
      (buildEntry f kvs).title = Json.str "No title available") ∧
    (objLookup kvs "description" = none →
      (buildEntry f kvs).description = Json.str "No description available") ∧
    (objLookup kvs "upload_timestamp" = none →
      (buildEntry f kvs).timestamp = Json.num 0) ∧
    ∃ es, get_all_images_with_metadata b = some es ∧ buildEntry f kvs ∈ es := by
  refine ⟨fun ht => by simp [buildEntry, ht], fun hd => by simp [buildEntry, hd],
    fun hts => by simp [buildEntry, hts], ?_⟩
  refine ⟨_, gallery_eq b hok, ?_⟩
  rw [List.mem_mergeSort]
  exact List.mem_map.2 ⟨f, List.mem_filter.2 ⟨hmem, him⟩, by simp [entryOf, hget]⟩

/-- C4: for every bucket state of the data model, the gallery view holds
exactly one entry per `.jpg`/`.jpeg` object (a permutation of the image
listing joined with each image's metadata document under the derived
`.json` name) and is sorted by timestamp in descending order. -/
theorem c4_gallery_view_spec (b : Bucket) (hok : bucketViewOk b = true) :
    ∃ es, get_all_images_with_metadata b = some es ∧
      es.Perm (((list_cloud_files b).filter (fun f => isImageName f)).map (entryOf b)) ∧
      es.Pairwise (fun x y => tsInt y ≤ tsInt x) := by
  refine ⟨_, gallery_eq b hok, List.mergeSort_perm _ _, ?_⟩
  have hs := List.sorted_mergeSort entryDescLe_trans entryDescLe_total
    (((list_cloud_files b).filter (fun f => isImageName f)).map (entryOf b))
  exact hs.imp (fun hxy => by simpa [entryDescLe] using hxy)

/-- C5: loading a metadata filename whose blob does not exist yields the
fixed placeholder document with timestamp `0` instead of failing; an image
whose derived metadata blob is missing gets gallery timestamp `0`; and in
the gallery every timestamp-`0` entry is placed after every entry carrying
a positive timestamp. -/
theorem c5_missing_metadata_placeholder_sorts_last (b : Bucket) (name : String)
    (hmiss : bucketGet b name = none) (hok : bucketViewOk b = true) :
    get_json_from_cloud name b = some (Json.obj
      [("title", Json.str "No metadata available"),
       ("description", Json.str "No description available"),
       ("upload_timestamp", Json.num 0)]) ∧
    (∀ f, bucketGet b ((splitext f).1 ++ ".json") = none →
      (entryOf b f).timestamp = Json.num 0) ∧
    ∀ es, get_all_images_with_metadata b = some es →
      ∀ i j (hi : i < es.length) (hj : j < es.length),
        tsInt es[i] = 0 → 0 < tsInt es[j] → j < i := by
  refine ⟨by simp [get_json_from_cloud, hmiss], ?_, ?_⟩
  · intro f hf
    simp [entryOf, get_json_from_cloud, hf, buildEntry, objLookup]
  · intro es hg i j hi hj h0 hpos
    have hes := Option.some.inj ((gallery_eq b hok).symm.trans hg)
    have hsorted := List.sorted_mergeSort entryDescLe_trans entryDescLe_total
      (((list_cloud_files b).filter (fun f => isImageName f)).map (entryOf b))
    rw [hes] at hsorted
    have hpair := List.pairwise_iff_getElem.mp hsorted
    by_contra hcon
    rcases Nat.lt_or_ge i j with hij | hij
    · have := hpair i j hi hj hij
      simp only [entryDescLe, decide_eq_true_eq] at this
      omega
    · have : i = j := by omega
      subst this
      omega

/-- C10: the gallery sort is stable: two entries with equal timestamps that
appear in a given relative order in the joined listing (the order the
object store enumerated them) appear in the same relative order in the
sorted gallery view. -/
theorem c10_gallery_sort_stable (b : Bucket) (hok : bucketViewOk b = true)
    (a e : GalleryEntry) (hts : tsInt a = tsInt e)
    (hsub : List.Sublist [a, e]
      (((list_cloud_files b).filter (fun f => isImageName f)).map (entryOf b))) :
    ∃ es, get_all_images_with_metadata b = some es ∧ List.Sublist [a, e] es := by
  refine ⟨_, gallery_eq b hok, ?_⟩
  exact List.pair_sublist_mergeSort entryDescLe_trans entryDescLe_total
    (by simp only [entryDescLe, decide_eq_true_eq]; omega) hsub

/-- C2: saving a metadata dictionary for image filename `f` and loading it
back under the derived name returns the original title and description
together with `upload_timestamp` equal to the clock value at the moment of
the save (hence at least the time the save was called), and the timestamp
is stamped inside `upload_json_to_cloud` itself, overwriting any
client-supplied `upload_timestamp` entry. -/
theorem c2_save_load_roundtrip (md : List (String × Json)) (f : String)
    (b : Bucket) (now : Int) (tv dv : Json)
    (hwf : ∀ kv ∈ md, JsonWF kv.2) (hnd : (md.map Prod.fst).Nodup)
    (htv : objLookup md "title" = some tv)
    (hdv : objLookup md "description" = some dv) :
    get_json_from_cloud (upload_json_to_cloud md f b now).1
        (upload_json_to_cloud md f b now).2.2 =
      some (Json.obj (objInsert md "upload_timestamp" (Json.num now))) ∧
    objLookup (objInsert md "upload_timestamp" (Json.num now)) "title" = some tv ∧
    objLookup (objInsert md "upload_timestamp" (Json.num now)) "description" = some dv ∧
    objLookup (objInsert md "upload_timestamp" (Json.num now)) "upload_timestamp" =
      some (Json.num now) := by
  have hwf2 : JsonWF (.obj (objInsert md "upload_timestamp" (Json.num now))) := by
    refine JsonWF.obj _ ?_ (keys_nodup_objInsert hnd)
    intro kv hkv
    rcases mem_objInsert hkv with h | h
    · exact hwf kv h
    · rw [h]; exact JsonWF.num now
  refine ⟨?_, ?_, ?_, objLookup_objInsert_self md _ _⟩
  · show get_json_from_cloud ((splitext f).1 ++ ".json")
      (bucketPut b ((splitext f).1 ++ ".json")
        ⟨dumps (Json.obj (objInsert md "upload_timestamp" (Json.num now))),
          "application/json"⟩) = _
    rw [get_json_from_cloud, bucketGet_bucketPut_self]
    exact jsonLoads_dumps _ hwf2
  · rw [objLookup_objInsert_ne md (Json.num now) (by decide)]
    exact htv
  · rw [objLookup_objInsert_ne md (Json.num now) (by decide)]
    exact hdv

theorem c2_save_load_roundtrip_witness :
    get_json_from_cloud
        (upload_json_to_cloud [("title", Json.str "Cat"), ("description", Json.str "A cat.")]
          "cat.jpg" [] 777).1
        (upload_json_to_cloud [("title", Json.str "Cat"), ("description", Json.str "A cat.")]
          "cat.jpg" [] 777).2.2 =
      some (Json.obj (objInsert [("title", Json.str "Cat"), ("description", Json.str "A cat.")]
        "upload_timestamp" (Json.num 777))) ∧
    objLookup (objInsert [("title", Json.str "Cat"), ("description", Json.str "A cat.")]
      "upload_timestamp" (Json.num 777)) "title" = some (Json.str "Cat") ∧
    objLookup (objInsert [("title", Json.str "Cat"), ("description", Json.str "A cat.")]
      "upload_timestamp" (Json.num 777)) "description" = some (Json.str "A cat.") ∧
    objLookup (objInsert [("title", Json.str "Cat"), ("description", Json.str "A cat.")]
      "upload_timestamp" (Json.num 777)) "upload_timestamp" = some (Json.num 777) :=
  c2_save_load_roundtrip [("title", Json.str "Cat"), ("description", Json.str "A cat.")]
    "cat.jpg" [] 777 (Json.str "Cat") (Json.str "A cat.")
    (by
      intro kv hkv
      rcases List.mem_cons.1 hkv with h | h
      · rw [h]; exact JsonWF.str "Cat"
      · rcases List.mem_singleton.1 h with rfl
        exact JsonWF.str "A cat.")
    (by decide) rfl rfl

theorem c4_gallery_view_spec_witness :
    bucketViewOk demoBucket = true ∧
    ∃ es, get_all_images_with_metadata demoBucket = some es ∧
      es.Perm (((list_cloud_files demoBucket).filter
        (fun f => isImageName f)).map (entryOf demoBucket)) ∧
      es.Pairwise (fun x y => tsInt y ≤ tsInt x) :=
  ⟨rfl, c4_gallery_view_spec demoBucket rfl⟩

theorem c5_missing_metadata_placeholder_sorts_last_witness :
    bucketGet demoBucket "c.json" = none ∧
    bucketViewOk demoBucket = true ∧
    (get_json_from_cloud "c.json" demoBucket = some (Json.obj
      [("title", Json.str "No metadata available"),
       ("description", Json.str "No description available"),
       ("upload_timestamp", Json.num 0)]) ∧
    (∀ f, bucketGet demoBucket ((splitext f).1 ++ ".json") = none →
      (entryOf demoBucket f).timestamp = Json.num 0) ∧
    ∀ es, get_all_images_with_metadata demoBucket = some es →
      ∀ i j (hi : i < es.length) (hj : j < es.length),
        tsInt es[i] = 0 → 0 < tsInt es[j] → j < i) :=
  ⟨rfl, rfl, c5_missing_metadata_placeholder_sorts_last demoBucket "c.json" rfl rfl⟩

theorem c9_missing_fields_defaults_witness :
    bucketViewOk mixedBucket = true ∧
    "m.jpg" ∈ list_cloud_files mixedBucket ∧
    isImageName "m.jpg" = true ∧
    get_json_from_cloud ((splitext "m.jpg").1 ++ ".json") mixedBucket =
      some (Json.obj [("title", Json.str "M")]) ∧
    ((objLookup [("title", Json.str "M")] "title" = none →
      (buildEntry "m.jpg" [("title", Json.str "M")]).title =
        Json.str "No title available") ∧
    (objLookup [("title", Json.str "M")] "description" = none →
      (buildEntry "m.jpg" [("title", Json.str "M")]).description =
        Json.str "No description available") ∧
    (objLookup [("title", Json.str "M")] "upload_timestamp" = none →
      (buildEntry "m.jpg" [("title", Json.str "M")]).timestamp = Json.num 0) ∧
    ∃ es, get_all_images_with_metadata mixedBucket = some es ∧
      buildEntry "m.jpg" [("title", Json.str "M")] ∈ es) ∧
    objLookup [("title", Json.str "M")] "title" = some (Json.str "M") ∧
    objLookup [("title", Json.str "M")] "description" = none ∧
    objLookup [("title", Json.str "M")] "upload_timestamp" = none :=
  ⟨rfl, by simp [mixedBucket, list_cloud_files], rfl, rfl,
    c9_missing_fields_defaults mixedBucket "m.jpg" [("title", Json.str "M")] rfl
      (by simp [mixedBucket, list_cloud_files]) rfl rfl,
    rfl, rfl, rfl⟩

theorem c10_gallery_sort_stable_witness :
    bucketViewOk demoBucket = true ∧
    tsInt (entryOf demoBucket "a.jpg") = tsInt (entryOf demoBucket "e.jpg") ∧
    List.Sublist [entryOf demoBucket "a.jpg", entryOf demoBucket "e.jpg"]
      (((list_cloud_files demoBucket).filter
        (fun f => isImageName f)).map (entryOf demoBucket)) ∧
    ∃ es, get_all_images_with_metadata demoBucket = some es ∧
      List.Sublist [entryOf demoBucket "a.jpg", entryOf demoBucket "e.jpg"] es :=
  ⟨rfl, rfl,
    List.Sublist.cons _ (List.Sublist.cons₂ _ (List.Sublist.cons _
      (List.Sublist.cons _ (List.Sublist.cons₂ _ List.Sublist.slnil)))),
    c10_gallery_sort_stable demoBucket rfl (entryOf demoBucket "a.jpg")
      (entryOf demoBucket "e.jpg") rfl
      (List.Sublist.cons _ (List.Sublist.cons₂ _ (List.Sublist.cons _
        (List.Sublist.cons _ (List.Sublist.cons₂ _ List.Sublist.slnil)))))⟩

/-- C1 (counterexample): the AI response `{"title": "t"}` parses as JSON but
lacks the required `description` field — malformed in the claim's sense —
yet `analyze_image_with_gemini` returns the parsed object, not the fixed
fallback pair. -/
theorem c1_counterexample :
    analyze_image_with_gemini "\x7b\"title\": \"t\"\x7d" =
      Json.obj [("title", Json.str "t")] ∧
    objLookup [("title", Json.str "t")] "description" = none ∧
    Json.obj [("title", Json.str "t")] ≠ fallbackResult := by
  refine ⟨rfl, rfl, ?_⟩
  intro h
  simp [fallbackResult] at h

/-- C1 (amended): `analyze_image_with_gemini` returns the fixed fallback
pair exactly when the response text fails to parse as JSON after
fence-stripping and whitespace normalization, and otherwise returns the
parsed value as is — even when that value lacks the title or description
fields.  It never raises (the model is a total function). -/
theorem c1_analyze_parse_characterization (s : String) :
    analyze_image_with_gemini s =
      (jsonLoads (normalizeResponse s)).getD fallbackResult := by
  cases h : jsonLoads (normalizeResponse s) <;>
    simp [analyze_image_with_gemini, h]

/-! ### Python `str.replace` on shaped inputs -/

theorem replaceAllGo_congr (pat rep : List Char) :
    ∀ (f1 f2 : Nat) (s : List Char), s.length ≤ f1 → s.length ≤ f2 →
      replaceAllGo pat rep f1 s = replaceAllGo pat rep f2 s := by
  intro f1
  induction f1 with
  | zero =>
    intro f2 s h1 h2
    have hs : s = [] := by
      cases s with
      | nil => rfl
      | cons c r => simp at h1
    subst hs
    cases f2 <;> rfl
  | succ f1 ih =>
    intro f2 s h1 h2
    cases s with
    | nil => cases f2 <;> rfl
    | cons c r =>
      cases f2 with
      | zero => simp at h2
      | succ f2 =>
        rw [replaceAllGo, replaceAllGo]
        by_cases hm : pat ≠ [] ∧ pat.isPrefixOf (c :: r)
        · rw [if_pos hm, if_pos hm]
          congr 1
          have hp : 1 ≤ pat.length := by
            cases hp : pat with
            | nil => exact absurd hp hm.1
            | cons p ps => simp
          apply ih
          · simp only [List.length_drop, List.length_cons] at *
            omega
          · simp only [List.length_drop, List.length_cons] at *
            omega
        · rw [if_neg hm, if_neg hm]
          congr 1
          apply ih
          · simp only [List.length_cons] at h1
            omega
          · simp only [List.length_cons] at h2
            omega

theorem replaceAllGo_eq_replaceAll (pat rep : List Char) {f : Nat}
    (s : List Char) (h : s.length ≤ f) :
    replaceAllGo pat rep f s = replaceAll pat rep s :=
  replaceAllGo_congr pat rep f s.length s h le_rfl

theorem replaceAll_single (a : Char) (rep : List Char) (s : List Char) :
    replaceAll [a] rep s =
      s.flatMap (fun c => if c = a then rep else [c]) := by
  suffices h : ∀ f (s : List Char), s.length ≤ f →
      replaceAllGo [a] rep f s = s.flatMap (fun c => if c = a then rep else [c]) from
    h s.length s le_rfl
  intro f
  induction f with
  | zero =>
    intro s h
    cases s with
    | nil => rfl
    | cons c r => simp at h
  | succ f ih =>
    intro s h
    cases s with
    | nil => rfl
    | cons c r =>
      rw [replaceAllGo]
      by_cases hca : c = a
      · subst hca
        rw [if_pos ⟨by simp, by simp [List.isPrefixOf]⟩]
        rw [show (c :: r).drop ([c] : List Char).length = r from rfl]
        rw [ih r (by simpa using h)]
        simp
      · rw [if_neg (fun hc => by
          have h2 := hc.2
          simp only [List.isPrefixOf, Bool.and_eq_true, beq_iff_eq] at h2
          exact hca h2.1.symm)]
        rw [ih r (by simpa using h)]
        simp [hca]

theorem flatMap_subst_id {a : Char} {rep : List Char} {s : List Char}
    (h : ∀ c ∈ s, ¬c = a) :
    s.flatMap (fun c => if c = a then rep else [c]) = s := by
  induction s with
  | nil => rfl
  | cons c r ih =>
    rw [List.flatMap_cons, if_neg (h c (by simp)), ih (fun x hx => h x (by simp [hx]))]
    rfl

theorem replaceAll_not_head (pat rep : List Char) (p0 : Char)
    (hp : pat.head? = some p0) :
    ∀ (xs ys : List Char), (∀ c ∈ xs, c ≠ p0) →
      replaceAll pat rep (xs ++ ys) = xs ++ replaceAll pat rep ys := by
  suffices h : ∀ f (xs ys : List Char), (xs ++ ys).length ≤ f →
      (∀ c ∈ xs, c ≠ p0) →
      replaceAllGo pat rep f (xs ++ ys) = xs ++ replaceAll pat rep ys by
    intro xs ys hxs
    exact h (xs ++ ys).length xs ys le_rfl hxs
  intro f
  induction f with
  | zero =>
    intro xs ys hlen hxs
    cases hxy : xs ++ ys with
    | nil =>
      have hx : xs = [] := by
        cases xs with
        | nil => rfl
        | cons => simp at hxy
      have hy : ys = [] := by
        cases xs <;> simp_all
      subst hx
      subst hy
      rfl
    | cons c r =>
      rw [hxy] at hlen
      simp at hlen
  | succ f ih =>
    intro xs ys hlen hxs
    cases xs with
    | nil =>
      simp only [List.nil_append] at *
      exact replaceAllGo_eq_replaceAll pat rep ys hlen
    | cons c xr =>
      obtain ⟨pt, hpt⟩ : ∃ pt, pat = p0 :: pt := by
        cases hpc : pat with
        | nil => rw [hpc] at hp; simp at hp
        | cons q qs =>
          rw [hpc] at hp
          simp only [List.head?_cons, Option.some.injEq] at hp
          exact ⟨qs, by rw [hp]⟩
      rw [List.cons_append, replaceAllGo]
      rw [if_neg (fun hc => by
        have h2 := hc.2
        rw [hpt] at h2
        simp only [List.isPrefixOf, Bool.and_eq_true, beq_iff_eq] at h2
        exact hxs c (by simp) h2.1.symm)]
      rw [ih xr ys (by simpa using hlen) (fun x hx => hxs x (by simp [hx]))]
      rfl

theorem replaceAll_head_match (pat rep : List Char) (s : List Char)
    (hpat : pat ≠ []) :
    replaceAll pat rep (pat ++ s) = rep ++ replaceAll pat rep s := by
  obtain ⟨p0, pt, hpt⟩ : ∃ p0 pt, pat = p0 :: pt := by
    cases hpc : pat with
    | nil => exact absurd hpc hpat
    | cons q qs => exact ⟨q, qs, rfl⟩
  rw [replaceAll]
  rw [show pat ++ s = p0 :: (pt ++ s) from by rw [hpt]; rfl]
  rw [show (p0 :: (pt ++ s)).length = (pt ++ s).length + 1 from by simp]
  rw [replaceAllGo]
  rw [if_pos ⟨hpat, by
    rw [hpt]
    have : (p0 :: pt).isPrefixOf ((p0 :: pt) ++ s) = true :=
      List.isPrefixOf_iff_prefix.mpr ⟨s, rfl⟩
    simpa using this⟩]
  congr 1
  rw [show (p0 :: (pt ++ s)).drop pat.length = s from by
    rw [hpt]
    have : ((p0 :: pt) ++ s).drop (p0 :: pt).length = s := List.drop_left _ _
    simpa using this]
  apply replaceAllGo_eq_replaceAll
  simp

theorem escape_plain {s : List Char} (h : ∀ c ∈ s, plainJsonChar c = true) :
    s.flatMap escapeChar = s := by
  induction s with
  | nil => rfl
  | cons c r ih =>
    have hc := h c (by simp)
    simp only [plainJsonChar, Bool.and_eq_true, Bool.not_eq_true',
      beq_eq_false_iff_ne, decide_eq_true_eq] at hc
    obtain ⟨⟨⟨⟨h32, h126⟩, hq⟩, hb⟩, -⟩ := hc
    have hesc : escapeChar c = [c] := by
      rw [escapeChar, if_neg hq, if_neg hb,
        if_neg (fun he => absurd (he ▸ h32) (by decide)),
        if_neg (fun he => absurd (he ▸ h32) (by decide)),
        if_neg (fun he => absurd (he ▸ h32) (by decide)),
        if_neg (by omega), if_neg (by omega), if_pos ⟨h32, h126⟩]
    rw [List.flatMap_cons, hesc, ih (fun x hx => h x (by simp [hx]))]
    rfl

theorem plain_ne {c : Char} (h : plainJsonChar c = true) :
    c ≠ '\n' ∧ c ≠ '\r' ∧ c ≠ '\t' ∧ c ≠ btick := by
  simp only [plainJsonChar, Bool.and_eq_true, Bool.not_eq_true',
    beq_eq_false_iff_ne, decide_eq_true_eq] at h
  obtain ⟨⟨⟨⟨h32, -⟩, -⟩, -⟩, hb⟩ := h
  refine ⟨?_, ?_, ?_, hb⟩ <;> intro he <;> rw [he] at h32 <;>
    exact absurd h32 (by decide)

theorem normalize_fenced_chars (ts ds : List Char)
    (ht : ∀ c ∈ ts, plainJsonChar c = true)
    (hd : ∀ c ∈ ds, plainJsonChar c = true) :
    replaceAll [btick, btick, btick] []
      (replaceAll [btick, btick, btick, 'j', 's', 'o', 'n'] []
        (replaceAll ['\t'] [' ']
          (replaceAll ['\r'] [' ']
            (replaceAll ['\n'] [' ']
              ([btick, btick, btick, 'j', 's', 'o', 'n', '\r',
                '{', '"', 't', 'i', 't', 'l', 'e', '"', ':', '\t', '"'] ++
               (ts ++
                (['"', ',', '\t', '"', 'd', 'e', 's', 'c', 'r', 'i', 'p',
                  't', 'i', 'o', 'n', '"', ':', '\t', '"'] ++
                 (ds ++ ['"', '}', '\n', btick, btick, btick])))))))) =
      [' ', '{', '"', 't', 'i', 't', 'l', 'e', '"', ':', ' ', '"'] ++
        (ts ++
         (['"', ',', ' ', '"', 'd', 'e', 's', 'c', 'r', 'i', 'p', 't', 'i',
           'o', 'n', '"', ':', ' ', '"'] ++
          (ds ++ ['"', '}', ' ']))) := by
  have h1 : replaceAll ['\n'] [' ']
      ([btick, btick, btick, 'j', 's', 'o', 'n', '\r',
        '{', '"', 't', 'i', 't', 'l', 'e', '"', ':', '\t', '"'] ++
       (ts ++
        (['"', ',', '\t', '"', 'd', 'e', 's', 'c', 'r', 'i', 'p',
          't', 'i', 'o', 'n', '"', ':', '\t', '"'] ++
         (ds ++ ['"', '}', '\n', btick, btick, btick])))) =
      [btick, btick, btick, 'j', 's', 'o', 'n', '\r',
        '{', '"', 't', 'i', 't', 'l', 'e', '"', ':', '\t', '"'] ++
       (ts ++
        (['"', ',', '\t', '"', 'd', 'e', 's', 'c', 'r', 'i', 'p',
          't', 'i', 'o', 'n', '"', ':', '\t', '"'] ++
         (ds ++ ['"', '}', ' ', btick, btick, btick]))) := by
    rw [replaceAll_single]
    simp only [List.flatMap_append]
    rw [flatMap_subst_id (fun c hc => (plain_ne (ht c hc)).1),
        flatMap_subst_id (fun c hc => (plain_ne (hd c hc)).1)]
    rfl
  have h2 : replaceAll ['\r'] [' ']
      ([btick, btick, btick, 'j', 's', 'o', 'n', '\r',
        '{', '"', 't', 'i', 't', 'l', 'e', '"', ':', '\t', '"'] ++
       (ts ++
        (['"', ',', '\t', '"', 'd', 'e', 's', 'c', 'r', 'i', 'p',
          't', 'i', 'o', 'n', '"', ':', '\t', '"'] ++
         (ds ++ ['"', '}', ' ', btick, btick, btick])))) =
      [btick, btick, btick, 'j', 's', 'o', 'n', ' ',
        '{', '"', 't', 'i', 't', 'l', 'e', '"', ':', '\t', '"'] ++
       (ts ++
        (['"', ',', '\t', '"', 'd', 'e', 's', 'c', 'r', 'i', 'p',
          't', 'i', 'o', 'n', '"', ':', '\t', '"'] ++
         (ds ++ ['"', '}', ' ', btick, btick, btick]))) := by
    rw [replaceAll_single]
    simp only [List.flatMap_append]
    rw [flatMap_subst_id (fun c hc => (plain_ne (ht c hc)).2.1),
        flatMap_subst_id (fun c hc => (plain_ne (hd c hc)).2.1)]
    rfl
  have h3 : replaceAll ['\t'] [' ']
      ([btick, btick, btick, 'j', 's', 'o', 'n', ' ',
        '{', '"', 't', 'i', 't', 'l', 'e', '"', ':', '\t', '"'] ++
       (ts ++
        (['"', ',', '\t', '"', 'd', 'e', 's', 'c', 'r', 'i', 'p',
          't', 'i', 'o', 'n', '"', ':', '\t', '"'] ++
         (ds ++ ['"', '}', ' ', btick, btick, btick])))) =
      [btick, btick, btick, 'j', 's', 'o', 'n'] ++
       ([' ', '{', '"', 't', 'i', 't', 'l', 'e', '"', ':', ' ', '"'] ++
        (ts ++
         (['"', ',', ' ', '"', 'd', 'e', 's', 'c', 'r', 'i', 'p',
           't', 'i', 'o', 'n', '"', ':', ' ', '"'] ++
          (ds ++
           (['"', '}', ' '] ++ [btick, btick, btick]))))) := by
    rw [replaceAll_single]
    simp only [List.flatMap_append]
    rw [flatMap_subst_id (fun c hc => (plain_ne (ht c hc)).2.2.1),
        flatMap_subst_id (fun c hc => (plain_ne (hd c hc)).2.2.1)]
    rfl
  have hxs : ∀ c ∈ [' ', '{', '"', 't', 'i', 't', 'l', 'e', '"', ':', ' ', '"'] ++
      (ts ++
       (['"', ',', ' ', '"', 'd', 'e', 's', 'c', 'r', 'i', 'p',
         't', 'i', 'o', 'n', '"', ':', ' ', '"'] ++
        (ds ++ ['"', '}', ' ']))), c ≠ btick := by
    intro c hc
    simp only [List.mem_append] at hc
    rcases hc with hc | hc | hc | hc | hc
    · revert hc
      revert c
      decide
    · exact (plain_ne (ht c hc)).2.2.2
    · revert hc
      revert c
      decide
    · exact (plain_ne (hd c hc)).2.2.2
    · revert hc
      revert c
      decide
  have h4 : replaceAll [btick, btick, btick, 'j', 's', 'o', 'n'] []
      ([btick, btick, btick, 'j', 's', 'o', 'n'] ++
       ([' ', '{', '"', 't', 'i', 't', 'l', 'e', '"', ':', ' ', '"'] ++
        (ts ++
         (['"', ',', ' ', '"', 'd', 'e', 's', 'c', 'r', 'i', 'p',
           't', 'i', 'o', 'n', '"', ':', ' ', '"'] ++
          (ds ++
           (['"', '}', ' '] ++ [btick, btick, btick])))))) =
      ([' ', '{', '"', 't', 'i', 't', 'l', 'e', '"', ':', ' ', '"'] ++
       (ts ++
        (['"', ',', ' ', '"', 'd', 'e', 's', 'c', 'r', 'i', 'p',
          't', 'i', 'o', 'n', '"', ':', ' ', '"'] ++
         (ds ++ ['"', '}', ' '])))) ++ [btick, btick, btick] := by
    rw [replaceAll_head_match [btick, btick, btick, 'j', 's', 'o', 'n'] [] _
      (by simp), List.nil_append]
    rw [show [' ', '{', '"', 't', 'i', 't', 'l', 'e', '"', ':', ' ', '"'] ++
        (ts ++
         (['"', ',', ' ', '"', 'd', 'e', 's', 'c', 'r', 'i', 'p',
           't', 'i', 'o', 'n', '"', ':', ' ', '"'] ++
          (ds ++
           (['"', '}', ' '] ++ [btick, btick, btick])))) =
        ([' ', '{', '"', 't', 'i', 't', 'l', 'e', '"', ':', ' ', '"'] ++
         (ts ++
          (['"', ',', ' ', '"', 'd', 'e', 's', 'c', 'r', 'i', 'p',
            't', 'i', 'o', 'n', '"', ':', ' ', '"'] ++
           (ds ++ ['"', '}', ' '])))) ++ [btick, btick, btick] from by
      simp [List.append_assoc]]
    rw [replaceAll_not_head [btick, btick, btick, 'j', 's', 'o', 'n'] []
      btick rfl _ [btick, btick, btick] hxs]
    rw [show replaceAll [btick, btick, btick, 'j', 's', 'o', 'n'] []
      [btick, btick, btick] = [btick, btick, btick] from by decide]
  have h5 : replaceAll [btick, btick, btick] []
      (([' ', '{', '"', 't', 'i', 't', 'l', 'e', '"', ':', ' ', '"'] ++
        (ts ++
         (['"', ',', ' ', '"', 'd', 'e', 's', 'c', 'r', 'i', 'p',
           't', 'i', 'o', 'n', '"', ':', ' ', '"'] ++
          (ds ++ ['"', '}', ' '])))) ++ [btick, btick, btick]) =
      [' ', '{', '"', 't', 'i', 't', 'l', 'e', '"', ':', ' ', '"'] ++
       (ts ++
        (['"', ',', ' ', '"', 'd', 'e', 's', 'c', 'r', 'i', 'p',
          't', 'i', 'o', 'n', '"', ':', ' ', '"'] ++
         (ds ++ ['"', '}', ' ']))) := by
    rw [replaceAll_not_head [btick, btick, btick] [] btick rfl _
      [btick, btick, btick] hxs]
    rw [show replaceAll [btick, btick, btick] [] [btick, btick, btick] =
      ([] : List Char) from by decide]
    simp
  rw [h1, h2, h3, h4, h5]

theorem normalized_template (t d : String)
    (ht : ∀ c ∈ t.data, plainJsonChar c = true)
    (hd : ∀ c ∈ d.data, plainJsonChar c = true) :
    (normalizeResponse (fencedTemplate t d)).data =
      ' ' :: (dumpChars (Json.obj [("title", Json.str t),
        ("description", Json.str d)]) ++ [' ']) := by
  have hL : (normalizeResponse (fencedTemplate t d)).data =
      replaceAll [btick, btick, btick] []
        (replaceAll [btick, btick, btick, 'j', 's', 'o', 'n'] []
          (replaceAll ['\t'] [' ']
            (replaceAll ['\r'] [' ']
              (replaceAll ['\n'] [' ']
                ([btick, btick, btick, 'j', 's', 'o', 'n', '\r',
                  '{', '"', 't', 'i', 't', 'l', 'e', '"', ':', '\t', '"'] ++
                 (t.data ++
                  (['"', ',', '\t', '"', 'd', 'e', 's', 'c', 'r', 'i', 'p',
                    't', 'i', 'o', 'n', '"', ':', '\t', '"'] ++
                   (d.data ++
                    ['"', '}', '\n', btick, btick, btick])))))))) := rfl
  rw [hL, normalize_fenced_chars t.data d.data ht hd]
  simp only [dumpChars, dumpMembers, dumpStringChars]
  rw [escape_plain ht, escape_plain hd,
      show ("title".data.flatMap escapeChar) = ['t', 'i', 't', 'l', 'e']
        from rfl,
      show ("description".data.flatMap escapeChar) =
        ['d', 'e', 's', 'c', 'r', 'i', 'p', 't', 'i', 'o', 'n'] from rfl]
  simp [List.cons_append, List.append_assoc]

/-- C6: for every valid AI response consisting of a JSON object with
`title` and `description` fields (fence-free printable text), wrapped in
markdown code fences and containing embedded carriage-return, tab and
newline characters, `analyze_image_with_gemini` strips the fence markers,
replaces each listed whitespace character by a space, and returns the
parsed object with the given title and description. -/
theorem c6_analyze_fenced_valid_response (t d : String)
    (ht : t.data.all plainJsonChar = true)
    (hd : d.data.all plainJsonChar = true) :
    analyze_image_with_gemini (fencedTemplate t d) =
      Json.obj [("title", Json.str t), ("description", Json.str d)] := by
  have ht' : ∀ c ∈ t.data, plainJsonChar c = true := by
    simpa [List.all_eq_true] using ht
  have hd' : ∀ c ∈ d.data, plainJsonChar c = true := by
    simpa [List.all_eq_true] using hd
  have hwf : JsonWF (Json.obj [("title", Json.str t),
      ("description", Json.str d)]) := by
    refine JsonWF.obj _ ?_
      (show (["title", "description"] : List String).Nodup from by decide)
    intro kv hkv
    simp only [List.mem_cons, List.not_mem_nil, or_false] at hkv
    rcases hkv with rfl | rfl
    · exact JsonWF.str t
    · exact JsonWF.str d
  have hn := normalized_template t d ht' hd'
  have hjson : jsonLoads (normalizeResponse (fencedTemplate t d)) =
      some (Json.obj [("title", Json.str t), ("description", Json.str d)]) := by
    rw [jsonLoads]
    have hlen : (normalizeResponse (fencedTemplate t d)).length + 1 =
        (dumpChars (Json.obj [("title", Json.str t),
          ("description", Json.str d)])).length + 3 := by
      have e : (normalizeResponse (fencedTemplate t d)).length =
          (normalizeResponse (fencedTemplate t d)).data.length := rfl
      rw [e, hn]
      simp only [List.length_cons, List.length_append, List.length_singleton,
        List.length_nil]
    rw [hlen, hn, parseValue_ws _ ' ' _ rfl,
        parseValue_dump ((dumpChars (Json.obj [("title", Json.str t),
            ("description", Json.str d)])).length + 3)
          (Json.obj [("title", Json.str t), ("description", Json.str d)])
          [' '] hwf (by omega) rfl]
    rfl
  simp [analyze_image_with_gemini, hjson]

/-- A concrete instance of the fenced-response law: a fenced, whitespace-
laden response carrying the title `A cat` and description `A cat on a
mat.` is parsed to exactly that object. -/
theorem c6_analyze_fenced_valid_response_witness :
    "A cat".data.all plainJsonChar = true ∧
    "A cat on a mat.".data.all plainJsonChar = true ∧
    analyze_image_with_gemini (fencedTemplate "A cat" "A cat on a mat.") =
      Json.obj [("title", Json.str "A cat"),
                ("description", Json.str "A cat on a mat.")] :=
  ⟨by decide, by decide,
   c6_analyze_fenced_valid_response "A cat" "A cat on a mat."
     (by decide) (by decide)⟩

end GalleryApp
